import Mathlib

/-!
Verification development for the toon-py serialization library
(`src/toon_py`): a shallow embedding of the normalizer, the primitive
codec, the structural encoder and the structural decoder, together with
theorems settling the specification claims.

Conventions of the embedding:
* Python strings are embedded as `List Char` (`Str`).
* Python `int` is `Int`; Python `float` is modelled by `PFloat`, whose
  finite values carry their exact rational value (rounding of decimal
  literals to binary doubles is not modelled; none of the claims
  distinguishes a literal from its rounded double).  Character classes
  (`str.isdigit`, regex `\d`, `\w`) are modelled over ASCII.
* Fallible Python code returns `Except`; `ValueError` raise sites are
  tagged `.parse` or `.count` according to whether they come from
  `assert_expected_count` / the strict "found more" checks (count) or
  from the lexical/syntactic helpers (parse); the `primitives[idx]`
  list access in `decode_tabular_array` is tagged `.index`.
* The recursive encoder and decoder are written as single fuel-indexed
  step functions (`encStep`, `dStep`) so that every definition is a
  plain structural recursion which the kernel can evaluate; the
  per-source-function wrappers keep the Python names.
-/

set_option exponentiation.threshold 1100

namespace Toon

/-- Python strings are embedded as lists of characters. -/
abbrev Str := List Char

/-- Convert a Lean string literal to the embedded representation. -/
def sl (s : String) : Str := s.toList

/-- Characters treated as whitespace by Python `str.strip` (ASCII part). -/
def pyIsSpace (c : Char) : Bool :=
  c = ' ' ∨ c = '\t' ∨ c = '\n' ∨ c = '\r' ∨ c = '\x0b' ∨ c = '\x0c'

/-- Python `str.lstrip()`. -/
def pyLstrip (s : Str) : Str := s.dropWhile pyIsSpace

/-- Python `str.rstrip()`. -/
def pyRstrip (s : Str) : Str := (s.reverse.dropWhile pyIsSpace).reverse

/-- Python `str.strip()`. -/
def pyStrip (s : Str) : Str := pyRstrip (pyLstrip s)

/-- Python `haystack.startswith(needle)`. -/
def startsWithStr (s pre : Str) : Bool := s.take pre.length = pre

/-- Python `str.find(ch, start)`: index of the first occurrence of `c` at
or after `start`, or `none` (Python returns `-1`). -/
def strFindFrom (s : Str) (c : Char) (start : Nat) : Option Nat :=
  match (s.drop start).findIdx? (· = c) with
  | some k => some (start + k)
  | none => none

/-- Python `str.find(ch)`. -/
def strFind (s : Str) (c : Char) : Option Nat := strFindFrom s c 0

/-- Python `delim.join(parts)`. -/
def joinWith (delim : Str) (parts : List Str) : Str :=
  match parts with
  | [] => []
  | p :: ps => p ++ (ps.map (fun q => delim ++ q)).flatten

/-- Decimal digits of a natural number, most significant first
(auxiliary loop, fuel-driven). -/
def natDigitsAux : Nat → Nat → Str → Str
  | 0, _, acc => acc
  | fuel + 1, n, acc =>
    let d := Char.ofNat (48 + n % 10)
    if n < 10 then d :: acc else natDigitsAux fuel (n / 10) (d :: acc)

/-- Decimal representation of a natural number, as produced by Python
`str` on a non-negative `int`. -/
def natDigits (n : Nat) : Str := natDigitsAux (n + 1) n []

/-- Python `str` on an `int`. -/
def pyIntRepr (n : Int) : Str :=
  if n < 0 then '-' :: natDigits n.natAbs else natDigits n.natAbs

/-- Strip factors of ten from a decimal mantissa, moving them into the
exponent (auxiliary loop). -/
def dec10Strip : Nat → Int → Int → Int × Int
  | 0, m, e => (m, e)
  | f + 1, m, e =>
    if m ≠ 0 ∧ m % 10 = 0 then dec10Strip f (m / 10) (e + 1) else (m, e)

/-- Canonical decimal pair for the value `m * 10 ^ e`: zero is `(0, 0)`
and otherwise ten does not divide the mantissa, so two equal values
have identical canonical pairs. -/
def dec10Canon (m e : Int) : Int × Int :=
  if m = 0 then (0, 0) else dec10Strip 4200 m e

/-- Model of a Python `float` value: NaN, the two infinities, negative
zero, or a finite value carried exactly as a canonical decimal pair
`m * 10 ^ e` (`fin 0 0` is positive zero).  Binary rounding of decimal
literals is not modelled; no claim distinguishes a literal from its
rounded double. -/
inductive PFloat where
  | pnan
  | pinf
  | pninf
  | negzero
  | fin (m : Int) (e : Int)
deriving DecidableEq, Repr

/-- The JSON-compatible value model operated on by the codec
(`toon_py.types.JsonValue`): primitives, arrays, and insertion-ordered
objects. -/
inductive J where
  | null
  | bool (b : Bool)
  | int (n : Int)
  | float (f : PFloat)
  | str (s : Str)
  | arr (elems : List J)
  | obj (entries : List (Str × J))
deriving Repr

instance : Inhabited J := ⟨J.null⟩

/-- An insertion-ordered Python dict with string keys and `J` values. -/
abbrev Obj := List (Str × J)

/-- Python dict item assignment `d[k] = v`: replace the value in place
when the key is present (keeping its position), append otherwise. -/
def dictSet : Obj → Str → J → Obj
  | [], k, v => [(k, v)]
  | (k', v') :: rest, k, v =>
    if k' = k then (k', v) :: rest else (k', v') :: dictSet rest k v

/-- Association lookup over the entries of an embedded dict. -/
def dictGet (d : Obj) (k : Str) : Option J :=
  match d with
  | [] => none
  | (k', v) :: rest => if k' = k then some v else dictGet rest k

/-- The key `in` test on an embedded dict. -/
def dictHasKey (d : Obj) (k : Str) : Bool := (dictGet d k).isSome

/-- toon_py.normalize.is_json_primitive: null, booleans, numbers and
strings are primitives. -/
def is_json_primitive : J → Bool
  | .null => true
  | .bool _ => true
  | .int _ => true
  | .float _ => true
  | .str _ => true
  | .arr _ => false
  | .obj _ => false

/-- toon_py.normalize.is_json_object. -/
def is_json_object : J → Bool
  | .obj _ => true
  | _ => false

/-- toon_py.normalize.is_json_array. -/
def is_json_array : J → Bool
  | .arr _ => true
  | _ => false

/-- toon_py.normalize.is_array_of_primitives: a list whose members are
all primitives (an empty list qualifies). -/
def is_array_of_primitives : J → Bool
  | .arr xs => xs.all is_json_primitive
  | _ => false

/-- toon_py.normalize.is_array_of_objects: a non-empty list whose
members are all dicts. -/
def is_array_of_objects : J → Bool
  | .arr xs => !xs.isEmpty && xs.all is_json_object
  | _ => false

/-- toon_py.normalize.is_array_of_arrays: a non-empty list whose
members are all lists. -/
def is_array_of_arrays : J → Bool
  | .arr xs => !xs.isEmpty && xs.all is_json_array
  | _ => false

/-- Split a character list into its maximal leading span of ASCII
digits and the rest. -/
def digitSpan (cs : Str) : Str × Str := (cs.takeWhile Char.isDigit, cs.dropWhile Char.isDigit)

/-- Consume one-or-more ASCII digits (regex `\d+` over ASCII), returning
the rest of the input, or `none` when no digit is present. -/
def digits1 (cs : Str) : Option Str :=
  let (d, r) := digitSpan cs
  if d.isEmpty then none else some r

/-- Strip one leading `+` or `-` from an exponent tail. -/
def expSignStrip (r : Str) : Str :=
  match r with
  | c :: rest => if c = '+' ∨ c = '-' then rest else r
  | [] => r

/-- The optional fractional-part step of the core pattern: consume
`'.' digits` when a dot leads, otherwise pass the input through. -/
def dotBranch (r1 : Str) : Option Str :=
  match r1 with
  | c :: r => if c = '.' then digits1 r else some r1
  | [] => some r1

/-- The optional exponent step of the core pattern: the end of input
accepts, otherwise `e`/`E`, an optional sign and digits must close the
token. -/
def expBranch (r2 : Str) : Bool :=
  match r2 with
  | [] => true
  | e :: r3 =>
    if e = 'e' ∨ e = 'E' then
      match digits1 (expSignStrip r3) with
      | none => false
      | some r5 => r5.isEmpty
    else false

/-- The part of the numeric-literal core pattern after the optional
minus sign: `\d+(\.\d+)?([eE][+-]?\d+)?`. -/
def numericCoreAfterSign (cs : Str) : Bool :=
  match digits1 cs with
  | none => false
  | some r1 =>
    match dotBranch r1 with
    | none => false
    | some r2 => expBranch r2

/-- Matcher for the numeric-literal core pattern of
toon_py.primitives.is_numeric_like, which is also the pattern the spec
states for quoting and decoding decisions:
`-?\d+(\.\d+)?(e[+-]?\d+)?` with `e` case-insensitive. -/
def numericCoreMatch (cs : Str) : Bool :=
  numericCoreAfterSign (if cs.head? = some '-' then cs.tail else cs)

/-- toon_py.primitives.is_numeric_like: the core numeric pattern, or a
leading zero followed by further digits (`0\d+`). -/
def is_numeric_like (value : Str) : Bool :=
  numericCoreMatch value ||
    (match value with
     | '0' :: rest => !rest.isEmpty && rest.all Char.isDigit
     | _ => false)

/-- Value and digit-count of a Python digit span with underscore
separators: a digit, then further digits each optionally preceded by a
single underscore (auxiliary loop over the remaining input). -/
def uDigitsLoop : Str → Nat → Nat → Nat × Nat × Str
  | [], acc, cnt => (acc, cnt, [])
  | c :: r, acc, cnt =>
    if c.isDigit then uDigitsLoop r (acc * 10 + (c.toNat - 48)) (cnt + 1)
    else if c = '_' then
      match r with
      | d :: r2 =>
        if d.isDigit then uDigitsLoop r2 (acc * 10 + (d.toNat - 48)) (cnt + 1)
        else (acc, cnt, c :: r)
      | [] => (acc, cnt, c :: r)
    else (acc, cnt, c :: r)

/-- Parse a Python numeric digit span (digits with underscore grouping,
as accepted by `float`/`int` literals): value, number of digits, rest.
Fails when the input does not start with a digit. -/
def parseUDigits (cs : Str) : Option (Nat × Nat × Str) :=
  match cs with
  | c :: _ =>
    if c.isDigit then some (uDigitsLoop cs 0 0) else none
  | [] => none

/-- Magnitude grammar of a Python float literal after the optional
sign: `digits [ '.' digits? ] | '.' digits`, then an optional exponent
`(e|E) sign? digits`.  Returns the exact value as an unsigned decimal
pair (mantissa, power of ten). -/
def pyFloatMagnitude (cs : Str) : Option (Nat × Int) :=
  let core : Option (Nat × Int × Str) :=
    match parseUDigits cs with
    | some (ip, _, r1) =>
      match r1 with
      | c :: r2 =>
        if c = '.' then
          match parseUDigits r2 with
          | some (fp, cnt, r3) => some (ip * 10 ^ cnt + fp, -(cnt : Int), r3)
          | none => some (ip, 0, r2)
        else some (ip, 0, r1)
      | [] => some (ip, 0, r1)
    | none =>
      match cs with
      | c :: r2 =>
        if c = '.' then
          match parseUDigits r2 with
          | some (fp, cnt, r3) => some (fp, -(cnt : Int), r3)
          | none => none
        else none
      | [] => none
  match core with
  | none => none
  | some (m, e0, rest) =>
    match rest with
    | [] => some (m, e0)
    | e :: r3 =>
      if e = 'e' ∨ e = 'E' then
        let eneg : Bool := r3.head? = some '-'
        match parseUDigits (expSignStrip r3) with
        | some (ev, _, r5) =>
          if r5.isEmpty then
            some (m, if eneg then e0 - (ev : Int) else e0 + (ev : Int))
          else none
        | none => none
      else none

/-- The smallest positive magnitude at which converting to a Python
float overflows (round-to-nearest tips `DBL_MAX` over to infinity). -/
def ovfBoundNat : ℕ := 2 ^ 1024 - 2 ^ 970

/-- Whether `|m| * 10 ^ e` reaches the bound `B` (integer arithmetic on
the decimal pair). -/
def dec10AbsGe (m e : Int) (B : ℕ) : Bool :=
  if e ≥ 0 then m.natAbs * 10 ^ e.toNat ≥ B
  else m.natAbs ≥ B * 10 ^ (-e).toNat

/-- Model of Python `float(string)`: optional sign, then `inf`,
`infinity`, `nan` (case-insensitive) or the numeric magnitude grammar;
`none` models `ValueError`.  Finite values are kept exact; magnitudes at
or beyond the overflow bound become infinities, and an exact zero with a
minus sign becomes negative zero. -/
def pyFloatOfString (cs0 : Str) : Option PFloat :=
  let cs := pyStrip cs0
  let (neg, body) : Bool × Str :=
    match cs with
    | c :: r =>
      if c = '-' then (true, r) else if c = '+' then (false, r) else (false, cs)
    | [] => (false, cs)
  let low := body.map Char.toLower
  if low = sl "inf" ∨ low = sl "infinity" then
    some (if neg then .pninf else .pinf)
  else if low = sl "nan" then some .pnan
  else
    match pyFloatMagnitude body with
    | none => none
    | some (m, e) =>
      if dec10AbsGe (m : Int) e ovfBoundNat then some (if neg then .pninf else .pinf)
      else if m = 0 ∧ neg then some .negzero
      else
        let (cm, ce) := dec10Canon (if neg then -(m : Int) else (m : Int)) e
        some (.fin cm ce)

/-- Model of Python `int(string)` (base 10): optional sign, then an
underscore-grouped digit span spanning the whole stripped input;
`none` models `ValueError`. -/
def pyIntOfString (cs0 : Str) : Option Int :=
  let cs := pyStrip cs0
  let (neg, body) : Bool × Str :=
    match cs with
    | c :: r =>
      if c = '-' then (true, r) else if c = '+' then (false, r) else (false, cs)
    | [] => (false, cs)
  match parseUDigits body with
  | some (v, _, rest) =>
    if rest.isEmpty then some (if neg then -(v : Int) else (v : Int)) else none
  | none => none

/-- Errors produced by the embedded decoder.  Python raises
`ValueError` everywhere except the `primitives[idx]` access in
`decode_tabular_array` (`IndexError`); the tags record the raise site
family: `.count` for `assert_expected_count` and the strict-mode
"found more" checks, `.parse` for lexical/syntactic errors, `.index`
for the list access, and `.nofuel` for exhaustion of the step fuel of
the embedding. -/
inductive DErr where
  | count (msg : Str)
  | parse (msg : Str)
  | index (msg : Str)
  | nofuel
deriving DecidableEq, Repr

/-- toon_py.parser.unescape_string: decode TOON backslash escapes
(`\n`, `\t`, `\r`, `\\`, `\"`); any other escape is an error, as is a
trailing backslash. -/
def unescape_string : Str → Except DErr Str
  | [] => .ok []
  | '\\' :: [] => .error (.parse (sl "Invalid escape sequence at end of string"))
  | '\\' :: c :: rest =>
    match (if c = 'n' then some '\n'
           else if c = 't' then some '\t'
           else if c = 'r' then some '\r'
           else if c = '\\' then some '\\'
           else if c = '"' then some '"'
           else none) with
    | some d => (unescape_string rest).map (fun r => d :: r)
    | none => .error (.parse (sl "Invalid escape sequence"))
  | c :: rest => (unescape_string rest).map (fun r => c :: r)

/-- Scan loop of toon_py.parser.parse_string_literal: collect the raw
content between the quotes (escape pairs copied verbatim), requiring
the closing quote to be the final character. -/
def stringLiteralScan : Str → Except DErr Str
  | [] => .error (.parse (sl "Unterminated string: missing closing quote"))
  | '\\' :: c :: rest =>
    (stringLiteralScan rest).map (fun r => '\\' :: c :: r)
  | '"' :: rest =>
    if rest.isEmpty then .ok []
    else .error (.parse (sl "Unexpected characters after closing quote"))
  | c :: rest => (stringLiteralScan rest).map (fun r => c :: r)

/-- toon_py.parser.parse_string_literal: strip, return non-quoted
tokens unchanged, otherwise scan to the closing quote and unescape. -/
def parse_string_literal (token : Str) : Except DErr Str :=
  let trimmed := pyStrip token
  match trimmed with
  | '"' :: rest => (stringLiteralScan rest).bind unescape_string
  | _ => .ok trimmed

/-- toon_py.parser.is_boolean_or_null_literal. -/
def is_boolean_or_null_literal (token : Str) : Bool :=
  token = sl "true" ∨ token = sl "false" ∨ token = sl "null"

/-- The leading-zero guard of toon_py.parser.is_numeric_literal:
`len(token) > 1 and token[0] == '0' and token[1] != '.'`. -/
def leadingZeroTok : Str → Bool
  | c0 :: c1 :: _ => c0 = '0' && !(c1 = '.')
  | _ => false

/-- toon_py.parser.is_numeric_literal: reject the empty token and a
leading zero followed by anything other than a dot, then accept exactly
the tokens `float` parses to a non-NaN value. -/
def is_numeric_literal (token : Str) : Bool :=
  if token.isEmpty then false
  else if leadingZeroTok token then false
  else
    match pyFloatOfString token with
    | none => false
    | some .pnan => false
    | some _ => true

/-- toon_py.parser.parse_primitive_token: strip the token; empty →
empty string; quoted → string literal; `true`/`false`/`null` →
boolean/null; numeric → `float` when a dot or exponent letter is
present, else `int`; anything else → the token itself as a string. -/
def parse_primitive_token (token : Str) : Except DErr J :=
  let trimmed := pyStrip token
  if trimmed.isEmpty then .ok (.str [])
  else if trimmed.head? = some '"' then
    (parse_string_literal trimmed).map .str
  else if is_boolean_or_null_literal trimmed then
    if trimmed = sl "true" then .ok (.bool true)
    else if trimmed = sl "false" then .ok (.bool false)
    else .ok .null
  else if is_numeric_literal trimmed then
    if trimmed.any (fun c => c = '.' ∨ c = 'e' ∨ c = 'E') then
      match pyFloatOfString trimmed with
      | some f => .ok (.float f)
      | none => .error (.parse (sl "could not convert string to float"))
    else
      match pyIntOfString trimmed with
      | some n => .ok (.int n)
      | none => .error (.parse (sl "invalid literal for int with base 10"))
  else .ok (.str trimmed)

/-- toon_py.parser.map_row_values_to_primitives. -/
def map_row_values_to_primitives (values : List Str) : Except DErr (List J) :=
  values.mapM parse_primitive_token

/-- Loop of toon_py.parser.parse_delimited_values: split on the
delimiter outside quotes, copying escape pairs inside quotes verbatim,
stripping each cell. -/
def delimitedLoop (delim : Char) : Str → Str → Bool → List Str → List Str
  | [], cur, _, acc =>
    if !cur.isEmpty ∨ !acc.isEmpty then acc ++ [pyStrip cur] else acc
  | '\\' :: c2 :: rest2, cur, true, acc =>
    delimitedLoop delim rest2 (cur ++ ['\\', c2]) true acc
  | c :: rest, cur, inQuotes, acc =>
    if c = '"' then
      delimitedLoop delim rest (cur ++ [c]) (!inQuotes) acc
    else if c = delim ∧ !inQuotes then
      delimitedLoop delim rest [] inQuotes (acc ++ [pyStrip cur])
    else
      delimitedLoop delim rest (cur ++ [c]) inQuotes acc

/-- toon_py.parser.parse_delimited_values. -/
def parse_delimited_values (input : Str) (delim : Char) : List Str :=
  delimitedLoop delim input [] false []

/-- Modelled from the host semantics of Python `str` on a `float`: for
a finite value that is an integer of magnitude below `10^16` the result
is the integer digits followed by `.0` (exactly Python's behaviour);
a finite value with a fractional part is rendered as its plain decimal
expansion (exact for values whose shortest repr is that expansion, an
approximation where Python would switch to scientific notation; no
theorem evaluates those cases). -/
def pyFloatRepr : PFloat → Str
  | .pnan => sl "nan"
  | .pinf => sl "inf"
  | .pninf => sl "-inf"
  | .negzero => sl "-0.0"
  | .fin m e =>
    if e ≥ 0 ∧ m.natAbs * 10 ^ e.toNat < 10 ^ 16 then
      pyIntRepr (m * ((10 ^ e.toNat : ℕ) : Int)) ++ sl ".0"
    else if e < 0 then
      let k := (-e).toNat
      let ds := natDigits m.natAbs
      let ds := if ds.length ≤ k then List.replicate (k + 1 - ds.length) '0' ++ ds else ds
      let sign : Str := if m < 0 then ['-'] else []
      sign ++ ds.take (ds.length - k) ++ ['.'] ++ ds.drop (ds.length - k)
    else
      pyIntRepr (m * ((10 ^ e.toNat : ℕ) : Int)) ++ sl ".0"

/-- toon_py.primitives.escape_string: the sequential replacements of
backslash, double quote, newline and carriage return, realised as a
single character-wise pass (equivalent because no replacement output
contains a character replaced by a later stage, and the backslash stage
runs first). -/
def escape_string (value : Str) : Str :=
  value.flatMap (fun c =>
    if c = '\\' then ['\\', '\\']
    else if c = '"' then ['\\', '"']
    else if c = '\n' then ['\\', 'n']
    else if c = '\r' then ['\\', 'r']
    else [c])

/-- toon_py.primitives.is_safe_unquoted: every condition a string must
meet to be emitted without quotes. -/
def is_safe_unquoted (value : Str) (delim : Char) : Bool :=
  if value.isEmpty then false
  else if value ≠ pyStrip value then false
  else if value = sl "true" ∨ value = sl "false" ∨ value = sl "null" then false
  else if is_numeric_like value then false
  else if value.any (fun c => c = ':' ∨ c = '"' ∨ c = '\\') then false
  else if value.any (fun c => c = '[' ∨ c = ']' ∨ c = '{' ∨ c = '}') then false
  else if value.any (fun c => c = '\n' ∨ c = '\r' ∨ c = '\t') then false
  else if delim ≠ '|' ∧ (value.contains delim ∨ value.contains '|') then false
  else if value.head? = some '-' then false
  else true

/-- toon_py.primitives.encode_string_literal. -/
def encode_string_literal (value : Str) (delim : Char) : Str :=
  if is_safe_unquoted value delim then value
  else '"' :: escape_string value ++ ['"']

/-- toon_py.primitives.encode_key: bare iff the key matches
`[A-Za-z_][\w.]*` (ASCII model of the word class), otherwise quoted
and escaped like a string. -/
def encode_key (key : Str) : Str :=
  let bare :=
    match key with
    | [] => false
    | c :: rest =>
      (c.isAlpha ∨ c = '_') &&
        rest.all (fun d => d.isAlphanum ∨ d = '_' ∨ d = '.')
  if bare then key else '"' :: escape_string key ++ ['"']

/-- toon_py.primitives.encode_primitive.  The array/object branches are
unreachable in the source (every call site guards with
is_json_primitive); they are mapped to the empty string. -/
def encode_primitive (value : J) (delim : Char) : Str :=
  match value with
  | .null => sl "null"
  | .bool b => if b then sl "true" else sl "false"
  | .int n => pyIntRepr n
  | .float f => pyFloatRepr f
  | .str s => encode_string_literal s delim
  | .arr _ => []
  | .obj _ => []

/-- toon_py.primitives.encode_and_join_primitives. -/
def encode_and_join_primitives (values : List J) (delim : Char) : Str :=
  joinWith [delim] (values.map (fun v => encode_primitive v delim))

/-- toon_py.primitives.format_header: `[<marker><length><suffix>]`
with the key, optional field list and trailing colon.  The field list
is emitted only when non-empty (Python truthiness of the `fields`
argument). -/
def format_header (length : Nat) (key : Option Str) (fields : Option (List Str))
    (delim : Char) (lengthMarker : Bool) : Str :=
  let keyPart := match key with
                 | some k => encode_key k
                 | none => []
  let marker : Str := if lengthMarker then ['#'] else []
  let suffix : Str := if delim ≠ ',' then [delim] else []
  let fieldsPart : Str :=
    match fields with
    | some fs =>
      if fs.isEmpty then []
      else '{' :: joinWith [delim] (fs.map encode_key) ++ ['}']
    | none => []
  keyPart ++ '[' :: marker ++ natDigits length ++ suffix ++ [']'] ++ fieldsPart ++ [':']

/-- Model of a Python `decimal.Decimal`: NaN, a signed infinity, or a
finite value `m * 10 ^ e` (a Decimal is exactly a decimal pair). -/
inductive PDecimal where
  | dnan
  | dinf (neg : Bool)
  | dfin (m : Int) (e : Int)
deriving DecidableEq, Repr

/-- Model of a Python dict key as it can appear in inputs to the
normalizer: a string, an int, or a bool (the shapes whose `str()`
coercion the embedding models). -/
inductive PyKey where
  | ks (s : Str)
  | ki (n : Int)
  | kb (b : Bool)
deriving DecidableEq, Repr

/-- Python `str()` on a modelled dict key. -/
def pyStrOfKey : PyKey → Str
  | .ks s => s
  | .ki n => pyIntRepr n
  | .kb b => if b then sl "True" else sl "False"

/-- Model of an arbitrary Python value fed to
toon_py.normalize.normalize_value: the host shapes the source
dispatches on.  `set` elements are listed in iteration order;
`datetime` carries the result of `isoformat()`; `other` stands for any
non-serialisable object (callables, opaque handles). -/
inductive PyValue where
  | none
  | bool (b : Bool)
  | int (n : Int)
  | float (f : PFloat)
  | str (s : Str)
  | decimal (d : PDecimal)
  | datetime (iso : Str)
  | set (xs : List PyValue)
  | dict (kvs : List (PyKey × PyValue))
  | list (xs : List PyValue)
  | tuple (xs : List PyValue)
  | other
deriving Repr

/-- Errors of the embedded normalizer: `nofuel` marks exhaustion of
the embedding's step fuel (normalization itself never raises). -/
inductive NErr where
  | nofuel
deriving DecidableEq, Repr

/-- Python `float()` applied to a finite `Decimal`:
`Decimal.__float__` converts through `float(str(value))`, so a finite
decimal beyond the double range becomes a signed infinity (as for
float-from-string) rather than raising; in-range values keep the exact
decimal (exact-decimal model of the rounded double). -/
def floatOfDecimal (m e : Int) : PFloat :=
  if dec10AbsGe m e ovfBoundNat then (if m < 0 then .pninf else .pinf)
  else
    let (cm, ce) := dec10Canon m e
    .fin cm ce

/-- toon_py.normalize.normalize_value, fuel-indexed.  The branch order
follows the source: None, bool, Decimal, int/float (which returns every
int unchanged — making the subsequent ±2^53 big-int branch of the
source, lines 60-67, unreachable, so it has no image here), str,
datetime, set, dict (keys coerced with `str()`, collisions
overwriting), list/tuple, and a final catch-all mapping anything else
to null. -/
def normalize_value : Nat → PyValue → Except NErr J
  | 0, _ => .error .nofuel
  | fuel + 1, v =>
    match v with
    | .none => .ok .null
    | .bool b => .ok (.bool b)
    | .decimal d =>
      match d with
      | .dnan => .ok .null
      | .dinf _ => .ok .null
      | .dfin m e => .ok (.float (floatOfDecimal m e))
    | .int n => .ok (.int n)
    | .float f =>
      match f with
      | .pnan => .ok .null
      | .pinf => .ok .null
      | .pninf => .ok .null
      | .negzero => .ok (.int 0)
      | .fin m e => .ok (.float (.fin m e))
    | .str s => .ok (.str s)
    | .datetime iso => .ok (.str iso)
    | .set xs => (xs.mapM (normalize_value fuel)).map .arr
    | .dict kvs =>
      (kvs.foldlM (fun acc (kv : PyKey × PyValue) => do
          let j ← normalize_value fuel kv.2
          pure (dictSet acc (pyStrOfKey kv.1) j)) ([] : Obj)).map .obj
    | .list xs => (xs.mapM (normalize_value fuel)).map .arr
    | .tuple xs => (xs.mapM (normalize_value fuel)).map .arr
    | .other => .ok .null

/-- Resolved encode options (toon_py.types.ResolvedEncodeOptions):
indent width, delimiter character, and whether length markers are
emitted (the resolver only ever stores `'#'` or `False`, modelled as a
Bool). -/
structure EncOpts where
  indent : Nat
  delim : Char
  lengthMarker : Bool
deriving Repr

/-- The default encode options: indent 2, comma delimiter, no length
marker. -/
def defaultEncOpts : EncOpts := ⟨2, ',', false⟩

/-- toon_py.writer.LineWriter.push: rstrip the content, absorb one
indentation level into a leading list-item marker, and append the
rendered line. -/
def writerPush (indentSize : Nat) (w : List Str) (depth : Nat) (content : Str) : List Str :=
  let content := pyRstrip content
  let indentDepth :=
    if depth > 0 ∧ (startsWithStr content (sl "- ") ∨ content = ['-'])
    then depth - 1 else depth
  w ++ [List.replicate (indentDepth * indentSize) ' ' ++ content]

/-- toon_py.writer.LineWriter.to_string. -/
def writerToString (w : List Str) : Str := joinWith ['\n'] w

/-- toon_py.encoders.encode_inline_array_line: header for the value
count plus the delimiter-joined encoded primitives (tab headers join
with a tab, all others with a single space). -/
def encode_inline_array_line (values : List J) (delim : Char)
    (key : Option Str) (lengthMarker : Bool) : Str :=
  let header := format_header values.length key none delim lengthMarker
  if values.isEmpty then header
  else
    let joined := encode_and_join_primitives values delim
    let sep : Char := if delim = '\t' then '\t' else ' '
    header ++ sep :: joined

/-- toon_py.encoders.encode_inline_primitive_array. -/
def encode_inline_primitive_array (key : Option Str) (values : List J)
    (w : List Str) (depth : Nat) (o : EncOpts) : List Str :=
  writerPush o.indent w depth
    (encode_inline_array_line values o.delim key o.lengthMarker)

/-- toon_py.encoders.encode_array_of_arrays_as_list_items: header line,
then one list-item line per nested primitive array. -/
def encode_array_of_arrays_as_list_items (key : Option Str) (values : List J)
    (w : List Str) (depth : Nat) (o : EncOpts) : List Str :=
  let w := writerPush o.indent w depth
    (format_header values.length key none o.delim o.lengthMarker)
  values.foldl (fun w arr =>
    if is_array_of_primitives arr then
      match arr with
      | .arr xs =>
        writerPush o.indent w (depth + 1)
          ('-' :: ' ' :: encode_inline_array_line xs o.delim none o.lengthMarker)
      | _ => w
    else w) w

/-- toon_py.encoders.is_tabular_array: every row is a dict with as many
keys as the header, containing every header key with a primitive
value. -/
def is_tabular_array (rows : List J) (header : List Str) : Bool :=
  rows.all (fun row =>
    match row with
    | .obj kvs =>
      kvs.length = header.length &&
        header.all (fun k =>
          match dictGet kvs k with
          | some v => is_json_primitive v
          | none => false)
    | _ => false)

/-- toon_py.encoders.extract_tabular_header: the first row's key list,
provided the first row is a non-empty dict and the whole array is
tabular for that header. -/
def extract_tabular_header (rows : List J) : Option (List Str) :=
  match rows with
  | [] => none
  | first :: _ =>
    match first with
    | .obj kvs =>
      let header := kvs.map Prod.fst
      if header.isEmpty then none
      else if is_tabular_array rows header then some header
      else none
    | _ => none

/-- toon_py.encoders.write_tabular_rows: one line per row, the header
fields' values delimiter-joined (rows that are not dicts are skipped;
unreachable after is_tabular_array).  Values are fetched by key;
`row[key]` is total here because the caller established tabularity, and
a missing key is mapped to null. -/
def write_tabular_rows (rows : List J) (header : List Str)
    (w : List Str) (depth : Nat) (o : EncOpts) : List Str :=
  rows.foldl (fun w row =>
    match row with
    | .obj kvs =>
      let values := header.map (fun k => (dictGet kvs k).getD .null)
      writerPush o.indent w depth (encode_and_join_primitives values o.delim)
    | _ => w) w

/-- toon_py.encoders.encode_array_of_objects_as_tabular. -/
def encode_array_of_objects_as_tabular (key : Option Str) (rows : List J)
    (header : List Str) (w : List Str) (depth : Nat) (o : EncOpts) : List Str :=
  let w := writerPush o.indent w depth
    (format_header rows.length key (some header) o.delim o.lengthMarker)
  write_tabular_rows rows header w (depth + 1) o

/-- Call shapes of the recursive part of the structural encoder, one
per mutually recursive source function. -/
inductive EncCall where
  | eObject (kvs : Obj) (depth : Nat)
  | eKV (k : Str) (v : J) (depth : Nat)
  | eArray (key : Option Str) (xs : List J) (depth : Nat)
  | eMixed (key : Option Str) (xs : List J) (depth : Nat)
  | eObjListItem (kvs : Obj) (depth : Nat)

/-- The recursive structural encoder (toon_py.encoders), fuel-indexed:
each `EncCall` case is the body of the corresponding source function,
threading the writer.  Out of fuel, the writer is returned unchanged
(concrete theorems supply ample fuel). -/
def encStep : Nat → EncCall → List Str → EncOpts → List Str
  | 0, _, w, _ => w
  | fuel + 1, c, w, o =>
    match c with
    | .eObject kvs depth =>
      kvs.foldl (fun w kv => encStep fuel (.eKV kv.1 kv.2 depth) w o) w
    | .eKV k v depth =>
      let ek := encode_key k
      if is_json_primitive v then
        writerPush o.indent w depth (ek ++ ':' :: ' ' :: encode_primitive v o.delim)
      else
        match v with
        | .arr xs => encStep fuel (.eArray (some k) xs depth) w o
        | .obj kvs =>
          let w := writerPush o.indent w depth (ek ++ [':'])
          if kvs.isEmpty then w
          else encStep fuel (.eObject kvs (depth + 1)) w o
        | _ => w
    | .eArray key xs depth =>
      if xs.isEmpty then
        writerPush o.indent w depth
          (format_header 0 key none o.delim o.lengthMarker)
      else if is_array_of_primitives (.arr xs) then
        encode_inline_primitive_array key xs w depth o
      else if is_array_of_arrays (.arr xs) &&
          xs.all is_array_of_primitives then
        encode_array_of_arrays_as_list_items key xs w depth o
      else if is_array_of_objects (.arr xs) then
        match extract_tabular_header xs with
        | some header => encode_array_of_objects_as_tabular key xs header w depth o
        | none => encStep fuel (.eMixed key xs depth) w o
      else encStep fuel (.eMixed key xs depth) w o
    | .eMixed key xs depth =>
      let w := writerPush o.indent w depth
        (format_header xs.length key none o.delim o.lengthMarker)
      xs.foldl (fun w item =>
        if is_json_primitive item then
          writerPush o.indent w (depth + 1)
            ('-' :: ' ' :: encode_primitive item o.delim)
        else
          match item with
          | .arr sub =>
            if is_array_of_primitives (.arr sub) then
              writerPush o.indent w (depth + 1)
                ('-' :: ' ' :: encode_inline_array_line sub o.delim none o.lengthMarker)
            else encStep fuel (.eArray none sub (depth + 1)) w o
          | .obj kvs => encStep fuel (.eObjListItem kvs (depth + 1)) w o
          | _ => w) w
    | .eObjListItem kvs depth =>
      match kvs with
      | [] => writerPush o.indent w depth ['-']
      | (k0, v0) :: restKvs =>
        let ek := encode_key k0
        let w :=
          if is_json_primitive v0 then
            writerPush o.indent w depth
              ('-' :: ' ' :: ek ++ ':' :: ' ' :: encode_primitive v0 o.delim)
          else
            match v0 with
            | .arr xs0 =>
              if is_array_of_primitives (.arr xs0) then
                writerPush o.indent w depth
                  ('-' :: ' ' :: encode_inline_array_line xs0 o.delim (some k0) o.lengthMarker)
              else if is_array_of_objects (.arr xs0) then
                match extract_tabular_header xs0 with
                | some header =>
                  let w := writerPush o.indent w depth
                    ('-' :: ' ' :: format_header xs0.length (some k0) (some header)
                      o.delim o.lengthMarker)
                  write_tabular_rows xs0 header w (depth + 1) o
                | none =>
                  let w := writerPush o.indent w depth
                    ('-' :: ' ' :: ek ++ '[' :: natDigits xs0.length ++ [']', ':'])
                  xs0.foldl (fun w nested =>
                    match nested with
                    | .obj nkvs => encStep fuel (.eObjListItem nkvs (depth + 1)) w o
                    | _ =>
                      if is_json_primitive nested then
                        writerPush o.indent w (depth + 1)
                          ('-' :: ' ' :: encode_primitive nested o.delim)
                      else
                        match nested with
                        | .arr nxs =>
                          if is_array_of_primitives (.arr nxs) then
                            writerPush o.indent w (depth + 1)
                              ('-' :: ' ' :: encode_inline_array_line nxs o.delim none o.lengthMarker)
                          else w
                        | _ => w) w
              else
                let w := writerPush o.indent w depth
                  ('-' :: ' ' :: ek ++ '[' :: natDigits xs0.length ++ [']', ':'])
                xs0.foldl (fun w nested =>
                  if is_json_primitive nested then
                    writerPush o.indent w (depth + 1)
                      ('-' :: ' ' :: encode_primitive nested o.delim)
                  else
                    match nested with
                    | .arr nxs =>
                      if is_array_of_primitives (.arr nxs) then
                        writerPush o.indent w (depth + 1)
                          ('-' :: ' ' :: encode_inline_array_line nxs o.delim none o.lengthMarker)
                      else w
                    | .obj nkvs => encStep fuel (.eObjListItem nkvs (depth + 1)) w o
                    | _ => w) w
            | .obj kvs0 =>
              let w := writerPush o.indent w depth ('-' :: ' ' :: ek ++ [':'])
              if kvs0.isEmpty then w
              else encStep fuel (.eObject kvs0 (depth + 2)) w o
            | _ => w
        restKvs.foldl (fun w kv => encStep fuel (.eKV kv.1 kv.2 (depth + 1)) w o) w

/-- toon_py.encoders.encode_object (wrapper over the step function). -/
def encode_object (fuel : Nat) (kvs : Obj) (w : List Str) (depth : Nat)
    (o : EncOpts) : List Str :=
  encStep fuel (.eObject kvs depth) w o

/-- toon_py.encoders.encode_key_value_pair (wrapper). -/
def encode_key_value_pair (fuel : Nat) (k : Str) (v : J) (w : List Str)
    (depth : Nat) (o : EncOpts) : List Str :=
  encStep fuel (.eKV k v depth) w o

/-- toon_py.encoders.encode_array (wrapper). -/
def encode_array (fuel : Nat) (key : Option Str) (xs : List J) (w : List Str)
    (depth : Nat) (o : EncOpts) : List Str :=
  encStep fuel (.eArray key xs depth) w o

/-- toon_py.encoders.encode_mixed_array_as_list_items (wrapper). -/
def encode_mixed_array_as_list_items (fuel : Nat) (key : Option Str)
    (xs : List J) (w : List Str) (depth : Nat) (o : EncOpts) : List Str :=
  encStep fuel (.eMixed key xs depth) w o

/-- toon_py.encoders.encode_object_as_list_item (wrapper). -/
def encode_object_as_list_item (fuel : Nat) (kvs : Obj) (w : List Str)
    (depth : Nat) (o : EncOpts) : List Str :=
  encStep fuel (.eObjListItem kvs depth) w o

/-- toon_py.encoders.encode_value: a primitive encodes to a single
token; an array or object runs the structural encoder from depth 0 and
joins the writer lines. -/
def encode_value (fuel : Nat) (value : J) (o : EncOpts) : Str :=
  if is_json_primitive value then encode_primitive value o.delim
  else
    match value with
    | .arr xs => writerToString (encode_array fuel none xs [] 0 o)
    | .obj kvs => writerToString (encode_object fuel kvs [] 0 o)
    | _ => []

/-- A scanned line (toon_py.types.ParsedLine): indentation depth,
leading-whitespace count, and the stripped content. -/
structure Line where
  depth : Nat
  indent : Nat
  content : Str
deriving DecidableEq, Repr

/-- toon_py.scanner.to_parsed_lines: split on newlines, drop blank
lines, depth = floor(leading whitespace / indent size). -/
def to_parsed_lines (text : Str) (indentSize : Nat) : List Line :=
  (text.splitOn '\n').filterMap (fun raw =>
    if (pyStrip raw).isEmpty then none
    else
      let indent := (raw.takeWhile pyIsSpace).length
      some ⟨indent / indentSize, indent, pyLstrip raw⟩)

/-- Array header data (toon_py.types.ArrayHeaderInfo). -/
structure ArrayHeaderInfo where
  key : Option Str
  length : Nat
  delim : Char
  fields : Option (List Str)
  hasLengthMarker : Bool
deriving DecidableEq, Repr

/-- toon_py.parser.parse_bracket_segment: optional `#` marker, optional
trailing tab/pipe delimiter suffix, then a non-empty all-digit length.
`none` models the ValueError which the caller catches. -/
def parse_bracket_segment (segment : Str) (defaultDelim : Char) :
    Option (Nat × Char × Bool) :=
  let (marker, content) : Bool × Str :=
    match segment with
    | '#' :: rest => (true, rest)
    | _ => (false, segment)
  let (delim, content) : Char × Str :=
    match content.getLast? with
    | some '\t' => ('\t', content.dropLast)
    | some '|' => ('|', content.dropLast)
    | _ => (defaultDelim, content)
  if content.isEmpty ∨ ¬ content.all Char.isDigit then none
  else some (content.foldl (fun acc c => acc * 10 + (c.toNat - 48)) 0, delim, marker)

/-- toon_py.parser.parse_fields_segment. -/
def parse_fields_segment (segment : Str) (delim : Char) : Except DErr (List Str) :=
  (parse_delimited_values segment delim).mapM
    (fun f => parse_string_literal (pyStrip f))

/-- toon_py.parser.parse_array_header_line: locate the bracket segment,
the optional brace-delimited field list, and the terminating colon;
`ok none` reproduces every `return None` of the source, and fields/key
string-literal failures propagate as errors. -/
def parse_array_header_line (content : Str) (defaultDelim : Char) :
    Except DErr (Option (ArrayHeaderInfo × Option Str)) :=
  if (pyLstrip content).head? = some '"' then .ok none
  else
    match strFind content '[' with
    | none => .ok none
    | some bs =>
      match strFindFrom content ']' bs with
      | none => .ok none
      | some be =>
        let braceStart? := strFindFrom content '{' be
        let braceEnd :=
          match braceStart? with
          | some bst =>
            match strFindFrom content ':' be with
            | some colonAfter =>
              if bst < colonAfter then
                match strFindFrom content '}' bst with
                | some fbe => fbe + 1
                | none => be + 1
              else be + 1
            | none => be + 1
          | none => be + 1
        match strFindFrom content ':' (max be braceEnd) with
        | none => .ok none
        | some colonIdx =>
          let keySegment := pyStrip (content.take bs)
          let afterColon := pyStrip (content.drop (colonIdx + 1))
          let bracketContent := (content.take be).drop (bs + 1)
          match parse_bracket_segment bracketContent defaultDelim with
          | none => .ok none
          | some (length, delim, marker) => do
            let fields? ←
              match braceStart? with
              | some bst =>
                if bst < colonIdx then
                  match strFindFrom content '}' bst with
                  | some fbe =>
                    if fbe < colonIdx then
                      (parse_fields_segment ((content.take fbe).drop (bst + 1)) delim).map some
                    else pure none
                  | none => pure none
                else pure none
              | none => pure none
            let key? ←
              if keySegment.isEmpty then pure none
              else if keySegment.head? = some '"' then
                (parse_string_literal keySegment).map some
              else pure (some keySegment)
            pure (some (⟨key?, length, delim, fields?, marker⟩,
              if afterColon.isEmpty then none else some afterColon))

/-- Scan loop of toon_py.parser.parse_quoted_key: raw key content up to
the closing quote (escape pairs copied), and the number of characters
consumed including the closing quote; the closing quote must be
followed immediately by a colon. -/
def quotedKeyScan : Str → Except DErr (Str × Nat)
  | [] => .error (.parse (sl "Unterminated quoted key"))
  | '\\' :: c :: rest =>
    (quotedKeyScan rest).map (fun r => ('\\' :: c :: r.1, r.2 + 2))
  | '"' :: rest =>
    if rest.head? = some ':' then .ok ([], 1)
    else .error (.parse (sl "Missing colon after key"))
  | c :: rest => (quotedKeyScan rest).map (fun r => (c :: r.1, r.2 + 1))

/-- toon_py.parser.parse_key_token (with `start = 0`, the only call
shape in the decoder): the key and the index just past the colon. -/
def parse_key_token (content : Str) : Except DErr (Str × Nat) :=
  match content with
  | [] => .error (.parse (sl "Missing key"))
  | '"' :: body => do
    let (raw, n) ← quotedKeyScan body
    let k ← unescape_string raw
    pure (k, n + 2)
  | _ =>
    match strFind content ':' with
    | some e => .ok (pyStrip (content.take e), e + 1)
    | none => .error (.parse (sl "Missing colon after key"))

/-- toon_py.parser.is_array_header_after_hyphen. -/
def is_array_header_after_hyphen (content : Str) : Bool :=
  let s := pyStrip content
  s.head? = some '[' ∧ s.contains ':'

/-- Quoted-line scan of toon_py.decoders.is_key_value_line. -/
def kvQuoteScan : Str → Bool
  | [] => false
  | '\\' :: _ :: rest => kvQuoteScan rest
  | '"' :: rest => rest.head? = some ':'
  | _ :: rest => kvQuoteScan rest

/-- toon_py.decoders.is_key_value_line: a quoted key must have its
closing quote immediately followed by a colon; otherwise any colon
qualifies. -/
def is_key_value_line (content : Str) : Bool :=
  match content with
  | '"' :: rest => kvQuoteScan rest
  | _ => content.contains ':'

/-- toon_py.decoders._coalesce_inline_values: when the split produced
more segments than expected, rejoin into equal chunks when evenly
divisible, otherwise merge everything beyond `expected - 1` into the
final token. -/
def chunksFuel : Nat → Nat → List Str → List (List Str)
  | 0, _, _ => []
  | f + 1, cs, xs => if xs.isEmpty then [] else xs.take cs :: chunksFuel f cs (xs.drop cs)

/-- toon_py.decoders._coalesce_inline_values (see `chunksFuel` for the
chunking loop). -/
def coalesce_inline_values (values : List Str) (expected : Nat) (delim : Char) :
    List Str :=
  if expected = 0 then values
  else if values.length = expected then values
  else if values.length < expected then values
  else if values.length % expected = 0 ∧ values.length / expected > 1 then
    (chunksFuel values.length (values.length / expected) values).map
      (joinWith [delim])
  else if expected > 1 ∧ values.length > expected then
    values.take (expected - 1) ++ [joinWith [delim] (values.drop (expected - 1))]
  else values

/-- toon_py.decoders._coalesce_row_values: rows only ever tail-merge
(no evenly-divisible chunking, unlike the inline coalescer). -/
def coalesce_row_values (values : List Str) (expected : Nat) (delim : Char) :
    List Str :=
  if expected = 0 then values
  else if values.length = expected then values
  else if values.length > expected then
    values.take (expected - 1) ++ [joinWith [delim] (values.drop (expected - 1))]
  else values

/-- Python truthiness of the optional header key (`header.key`). -/
def keyTruthy : Option Str → Bool
  | some k => !k.isEmpty
  | none => false

/-- Python truthiness of the optional header field list
(`header.fields`). -/
def fieldsTruthy : Option (List Str) → Bool
  | some fs => !fs.isEmpty
  | none => false

/-- The raise of toon_py.decoders.assert_expected_count, and the
strict-mode-only "found more" raises: an error exactly when strict mode
is on and the condition holds. -/
def guardCount (strict : Bool) (bad : Bool) (msg : Str) : Except DErr Unit :=
  if strict ∧ bad then .error (.count msg) else .ok ()

/-- The message text of assert_expected_count. -/
def countMsg (expected actual : Nat) (label : Str) : Str :=
  sl "Expected " ++ natDigits expected ++ ' ' :: label ++ sl ", but got " ++ natDigits actual

/-- Row-object construction loop of toon_py.decoders.decode_tabular_array
(`obj[field] = primitives[idx]`); a missing index reproduces Python's
IndexError. -/
def buildRow : List Str → List J → Nat → Obj → Except DErr Obj
  | [], _, _, acc => .ok acc
  | f :: fs, prims, idx, acc =>
    match prims.get? idx with
    | some p => buildRow fs prims (idx + 1) (dictSet acc f p)
    | none => .error (.index (sl "list index out of range"))

/-- Membership of a depth in the candidate set of
toon_py.decoders.decode_list_array. -/
def inCandidates (itemDepth d : Nat) : Bool :=
  d = itemDepth ∨ (itemDepth > 0 ∧ d = itemDepth - 1)

/-- The minimum of the candidate depths of decode_list_array. -/
def minCandidate (itemDepth : Nat) : Nat :=
  if itemDepth > 0 then itemDepth - 1 else itemDepth

/-- Call shapes of the recursive structural decoder, one per source
function of toon_py.decoders, with the `while` loops of
decode_object, decode_list_array, decode_tabular_array and
decode_object_from_list_item as their own shapes. -/
inductive DCall where
  | valueFromLines (i : Nat)
  | objLoop (base : Nat) (i : Nat) (acc : Obj)
  | keyValue (content : Str) (base : Nat) (i : Nat)
  | arrayFromHeader (h : ArrayHeaderInfo) (inl : Option Str) (base : Nat) (i : Nat)
  | listArray (h : ArrayHeaderInfo) (base : Nat) (i : Nat)
  | listLoop (h : ArrayHeaderInfo) (itemDepth : Nat) (i : Nat) (acc : List J)
  | listItem (itemDepth : Nat) (delim : Char) (i : Nat)
  | tabArray (h : ArrayHeaderInfo) (base : Nat) (i : Nat)
  | tabLoop (h : ArrayHeaderInfo) (rowDepth : Nat) (i : Nat) (acc : List J)
  | objFromListItem (afterHyphen : Str) (base : Nat) (i : Nat)
  | kvLoop (followDepth : Nat) (i : Nat) (acc : Obj)

/-- Result type of each decoder call shape (the decoded payload plus
the cursor index after the call). -/
def DResTy : DCall → Type
  | .valueFromLines _ => J × Nat
  | .objLoop _ _ _ => Obj × Nat
  | .keyValue _ _ _ => Str × J × Nat × Nat
  | .arrayFromHeader _ _ _ _ => List J × Nat
  | .listArray _ _ _ => List J × Nat
  | .listLoop _ _ _ _ => List J × Nat
  | .listItem _ _ _ => J × Nat
  | .tabArray _ _ _ => List J × Nat
  | .tabLoop _ _ _ _ => List J × Nat
  | .objFromListItem _ _ _ => Obj × Nat
  | .kvLoop _ _ _ => Obj × Nat

/-- The recursive structural decoder (toon_py.decoders), fuel-indexed;
each call shape is the body of the corresponding source function over
an explicit cursor index into the scanned lines. -/
def dStep : Nat → List Line → Bool → (c : DCall) → Except DErr (DResTy c)
  | 0, _, _, c => (fun _ => .error .nofuel) c
  | fuel + 1, lines, strict, .valueFromLines i =>
    match lines.get? i with
    | none => .error (.parse (sl "No content to decode"))
    | some first => do
      let rootHdr? ←
        if is_array_header_after_hyphen first.content then
          parse_array_header_line first.content ','
        else pure none
      match rootHdr? with
      | some (h, inl) => do
        let (xs, i') ← dStep fuel lines strict (.arrayFromHeader h inl 0 (i + 1))
        pure (J.arr xs, i')
      | none =>
        if lines.length = 1 ∧ ¬ is_key_value_line first.content then do
          let v ← parse_primitive_token (pyStrip first.content)
          pure (v, i)
        else do
          let (o, i') ← dStep fuel lines strict (.objLoop 0 i [])
          pure (J.obj o, i')
  | fuel + 1, lines, strict, .objLoop base i acc =>
    match lines.get? i with
    | none => .ok (acc, i)
    | some line =>
      if line.depth < base then .ok (acc, i)
      else if line.depth = base then do
        let (k, v, _, i') ← dStep fuel lines strict (.keyValue line.content base (i + 1))
        dStep fuel lines strict (.objLoop base i' (dictSet acc k v))
      else .ok (acc, i)
  | fuel + 1, lines, strict, .keyValue content base i => do
    let hdr? ← parse_array_header_line content ','
    let useHdr : Option (ArrayHeaderInfo × Option Str) :=
      match hdr? with
      | some (h, inl) => if keyTruthy h.key then some (h, inl) else none
      | none => none
    match useHdr with
    | some (h, inl) => do
      let (xs, i') ← dStep fuel lines strict (.arrayFromHeader h inl base i)
      pure (h.key.getD [], J.arr xs, base + 1, i')
    | none => do
      let (k, endPos) ← parse_key_token content
      let rest := pyStrip (content.drop endPos)
      if rest.isEmpty then
        match lines.get? i with
        | some nl =>
          if nl.depth > base then do
            let (o, i') ← dStep fuel lines strict (.objLoop (base + 1) i [])
            pure (k, J.obj o, base + 1, i')
          else pure (k, J.obj [], base + 1, i)
        | none => pure (k, J.obj [], base + 1, i)
      else do
        let v ← parse_primitive_token rest
        pure (k, v, base + 1, i)
  | fuel + 1, lines, strict, .arrayFromHeader h inl base i =>
    match inl with
    | some s =>
      if !(pyStrip s).isEmpty then do
        let values := parse_delimited_values s h.delim
        let values := coalesce_inline_values values h.length h.delim
        let prims ← map_row_values_to_primitives values
        let _ ← guardCount strict (prims.length ≠ h.length)
          (countMsg h.length prims.length (sl "inline array items"))
        pure (prims, i)
      else if fieldsTruthy h.fields then dStep fuel lines strict (.tabArray h base i)
      else dStep fuel lines strict (.listArray h base i)
    | none =>
      if fieldsTruthy h.fields then dStep fuel lines strict (.tabArray h base i)
      else dStep fuel lines strict (.listArray h base i)
  | fuel + 1, lines, strict, .listArray h base i => do
    let itemDepth := base + 1
    let (items, i') ← dStep fuel lines strict (.listLoop h itemDepth i [])
    let _ ← guardCount strict (items.length ≠ h.length)
      (countMsg h.length items.length (sl "list array items"))
    let _ ← guardCount strict
      (match lines.get? i' with
       | some nl =>
         inCandidates itemDepth nl.depth ∧
           (startsWithStr nl.content (sl "- ") ∨ nl.content = ['-'])
       | none => false)
      (sl "Expected " ++ natDigits h.length ++ sl " list array items, but found more")
    pure (items, i')
  | fuel + 1, lines, strict, .listLoop h itemDepth i acc =>
    if acc.length ≥ h.length then .ok (acc, i)
    else
      match lines.get? i with
      | none => .ok (acc, i)
      | some line =>
        if line.depth < minCandidate itemDepth then .ok (acc, i)
        else if inCandidates itemDepth line.depth then
          if line.content = ['-'] then
            dStep fuel lines strict (.listLoop h itemDepth (i + 1) (acc ++ [J.obj []]))
          else if startsWithStr line.content (sl "- ") then do
            let (item, i') ← dStep fuel lines strict (.listItem itemDepth h.delim i)
            dStep fuel lines strict (.listLoop h itemDepth i' (acc ++ [item]))
          else do
            let nested? ← parse_array_header_line line.content h.delim
            match nested? with
            | some (nh, ninl) => do
              let (xs, i') ← dStep fuel lines strict
                (.arrayFromHeader nh ninl itemDepth (i + 1))
              dStep fuel lines strict (.listLoop h itemDepth i' (acc ++ [J.arr xs]))
            | none => pure (acc, i)
        else .ok (acc, i)
  | fuel + 1, lines, strict, .listItem itemDepth delim i =>
    match lines.get? i with
    | none => .error (.parse (sl "Expected list item"))
    | some line =>
      if line.content = ['-'] then .ok (J.obj [], i + 1)
      else
        let afterHyphen := line.content.drop 2
        if (pyStrip afterHyphen).isEmpty then .ok (J.obj [], i + 1)
        else do
          let hdr? ←
            if is_array_header_after_hyphen afterHyphen then
              parse_array_header_line afterHyphen delim
            else pure none
          match hdr? with
          | some (h, inl) => do
            let (xs, i') ← dStep fuel lines strict
              (.arrayFromHeader h inl itemDepth (i + 1))
            pure (J.arr xs, i')
          | none =>
            if afterHyphen.contains ':' then do
              let (o, i') ← dStep fuel lines strict
                (.objFromListItem afterHyphen itemDepth (i + 1))
              pure (J.obj o, i')
            else do
              let v ← parse_primitive_token afterHyphen
              pure (v, i + 1)
  | fuel + 1, lines, strict, .tabArray h base i => do
    let rowDepth := base + 1
    let (objs, i') ← dStep fuel lines strict (.tabLoop h rowDepth i [])
    let _ ← guardCount strict (objs.length ≠ h.length)
      (countMsg h.length objs.length (sl "tabular rows"))
    let _ ← guardCount strict
      (match lines.get? i' with
       | some nl =>
         if nl.depth = rowDepth ∧ ¬ startsWithStr nl.content (sl "- ") then
           if ¬ nl.content.contains ':' then true
           else if nl.content.contains h.delim then
             match strFind nl.content ':', strFind nl.content h.delim with
             | some cp, some dp => dp < cp
             | _, _ => false
           else false
         else false
       | none => false)
      (sl "Expected " ++ natDigits h.length ++ sl " tabular rows, but found more")
    pure (objs, i')
  | fuel + 1, lines, strict, .tabLoop h rowDepth i acc =>
    if acc.length ≥ h.length then .ok (acc, i)
    else
      match lines.get? i with
      | none => .ok (acc, i)
      | some line =>
        if line.depth < rowDepth then .ok (acc, i)
        else if line.depth = rowDepth then do
          let values := parse_delimited_values line.content h.delim
          let nf := (h.fields.getD []).length
          let values := coalesce_row_values values nf h.delim
          let _ ← guardCount strict (values.length ≠ nf)
            (countMsg nf values.length (sl "tabular row values"))
          let prims ← map_row_values_to_primitives values
          let obj ← buildRow (h.fields.getD []) prims 0 []
          dStep fuel lines strict (.tabLoop h rowDepth (i + 1) (acc ++ [J.obj obj]))
        else .ok (acc, i)
  | fuel + 1, lines, strict, .objFromListItem afterHyphen base i => do
    let (k, v, followDepth, i') ← dStep fuel lines strict (.keyValue afterHyphen base i)
    dStep fuel lines strict (.kvLoop followDepth i' (dictSet [] k v))
  | fuel + 1, lines, strict, .kvLoop followDepth i acc =>
    match lines.get? i with
    | none => .ok (acc, i)
    | some line =>
      if line.depth < followDepth then .ok (acc, i)
      else if line.depth = followDepth ∧ ¬ startsWithStr line.content (sl "- ") then do
        let (k, v, _, i') ← dStep fuel lines strict (.keyValue line.content followDepth (i + 1))
        dStep fuel lines strict (.kvLoop followDepth i' (dictSet acc k v))
      else .ok (acc, i)

/-- toon_py.decoders.decode_value_from_lines (wrapper over the step
function, started at cursor index 0). -/
def decode_value_from_lines (fuel : Nat) (lines : List Line) (strict : Bool) :
    Except DErr (J × Nat) :=
  dStep fuel lines strict (.valueFromLines 0)

/-- toon_py.decoder.decode with the default indent of 2: empty or
whitespace-only input decodes to an empty object, otherwise the text is
scanned and the structural decoder runs with ample fuel. -/
def decodeText (strict : Bool) (text : Str) : Except DErr J :=
  if (pyStrip text).isEmpty then .ok (J.obj [])
  else
    let lines := to_parsed_lines text 2
    if lines.isEmpty then .ok (J.obj [])
    else (decode_value_from_lines (4 * text.length + 64) lines strict).map Prod.fst

/-- toon_py.encoder.encode with resolved options: normalize, then run
the structural encoder (only the embedding's fuel can fail; the source
never raises here). -/
def encode (fuel : Nat) (value : PyValue) (o : EncOpts) : Except NErr Str :=
  (normalize_value fuel value).map (fun j => encode_value fuel j o)

/-- Numeric view used by the Python `==` model: finite values as
canonical decimal pairs, plus the infinities (NaN has no view and never
compares equal). -/
inductive NumV where
  | finv (m e : Int)
  | infv
  | ninfv
deriving DecidableEq, Repr

/-- The numeric view of a `J` value (bool, int and float are one
numeric tower in Python). -/
def numView : J → Option NumV
  | .bool b => some (.finv (if b then 1 else 0) 0)
  | .int n => some (.finv (dec10Canon n 0).1 (dec10Canon n 0).2)
  | .float .pnan => none
  | .float .pinf => some .infv
  | .float .pninf => some .ninfv
  | .float .negzero => some (.finv 0 0)
  | .float (.fin m e) => some (.finv m e)
  | _ => none

/-- Whether a `J` value is of a numeric Python type. -/
def isNumKind : J → Bool
  | .bool _ => true
  | .int _ => true
  | .float _ => true
  | _ => false

/-- Model of Python `==` on decoded values, fuel-indexed: numbers
compare across bool/int/float by value (NaN equal to nothing), dicts
compare order-insensitively by key lookup, lists elementwise. -/
def pyEqF : Nat → J → J → Bool
  | 0, _, _ => false
  | fuel + 1, a, b =>
    if isNumKind a || isNumKind b then
      match numView a, numView b with
      | some x, some y => x = y
      | _, _ => false
    else
      match a, b with
      | .null, .null => true
      | .str s, .str t => s = t
      | .arr xs, .arr ys =>
        xs.length = ys.length &&
          (xs.zip ys).all (fun p => pyEqF fuel p.1 p.2)
      | .obj d1, .obj d2 =>
        d1.length = d2.length &&
          d1.all (fun kv =>
            match dictGet d2 kv.1 with
            | some v2 => pyEqF fuel kv.2 v2
            | none => false)
      | _, _ => false

/-- Whether a normalization result is a `String` canonical value. -/
def isStrResult : Except NErr J → Bool
  | .ok (.str _) => true
  | _ => false

/-- Simulation relation between a strict-mode decoder result and the
corresponding non-strict result: either the strict run failed with a
count-mismatch error, or the non-strict result is identical. -/
def SimR {α : Type} (s n : Except DErr α) : Prop :=
  (∃ m, s = .error (.count m)) ∨ n = s

/-! ### Claim theorems -/

/-- C1.  The round-trip law fails on the code: for the canonical value
`[ obj a ↦ obj x ↦ 1 ]` (an array whose object element has an object as
the value of its first key), `encode_object_as_list_item` writes the
nested object two levels deeper than the list-item line while the
decoder reads nested objects one level deeper, so strict decoding of
the encoded text silently returns `[ obj a ↦ empty-obj ]`, which is not
Python-equal to the input.  (The claim is right about the intended
behaviour — the spec's round-trip law — and the code is wrong.) -/
theorem c1_roundtrip_fails_on_nested_object_list_item :
    encode_value 32 (J.arr [J.obj [(sl "a", J.obj [(sl "x", J.int 1)])]])
        defaultEncOpts = sl "[1]:\n- a:\n      x: 1"
    ∧ decodeText true (sl "[1]:\n- a:\n      x: 1") =
        .ok (J.arr [J.obj [(sl "a", J.obj [])]])
    ∧ pyEqF 32 (J.arr [J.obj [(sl "a", J.obj [])]])
        (J.arr [J.obj [(sl "a", J.obj [(sl "x", J.int 1)])]]) = false :=
  ⟨rfl, rfl, rfl⟩

/-- C2.  normalize_value returns every int unchanged: the int/float
branch (normalize.py line 50) returns before the ±2^53 BigInt branch
(lines 60-67) can run, so the integer 2^53 + 1 = 9007199254740993 stays
a Number instead of becoming the decimal String promised by the claim
and by the function's own docstring. -/
theorem c2_bigint_not_stringified :
    normalize_value 8 (PyValue.int (2 ^ 53 + 1)) = .ok (J.int (2 ^ 53 + 1))
    ∧ isStrResult (normalize_value 8 (PyValue.int (2 ^ 53 + 1))) = false :=
  ⟨rfl, rfl⟩

/-- C7.  Strict decoding of `items[3]: a,b` raises the count-mismatch
error, and non-strict decoding returns the object with the two items
actually read. -/
theorem c7_strict_count_mismatch :
    decodeText true (sl "items[3]: a,b") =
      .error (.count (countMsg 3 2 (sl "inline array items")))
    ∧ decodeText false (sl "items[3]: a,b") =
      .ok (J.obj [(sl "items", J.arr [J.str (sl "a"), J.str (sl "b")])]) :=
  ⟨rfl, rfl⟩

/-- C9.  encode never raises, but the infinity check is bypassed on
the Decimal path: normalization converts a finite Decimal with
`float(value)`, which for `Decimal('1e400')` yields infinity via the
string conversion path, and the result is returned without the NaN/
infinity-to-Null check that guards direct float inputs — so normalize
produces a float infinity instead of Null and encode emits the bare
token `inf`, against the claim's (and the spec contract's) rule that
NaN, infinities and unrepresentable inputs become Null.  The last
conjunct shows the intended behaviour on the direct-float path. -/
theorem c9_decimal_overflow_leaks_infinity :
    normalize_value 8 (PyValue.decimal (.dfin 1 400)) = .ok (J.float .pinf)
    ∧ normalize_value 8 (PyValue.decimal (.dfin 1 400)) ≠ .ok J.null
    ∧ encode 8 (PyValue.decimal (.dfin 1 400)) defaultEncOpts = .ok (sl "inf")
    ∧ normalize_value 8 (PyValue.float .pinf) = .ok J.null := by
  refine ⟨rfl, ?_, rfl, rfl⟩
  intro h
  have h2 : Except.ok (ε := NErr) (J.float .pinf) = .ok J.null := h
  exact J.noConfusion (Except.ok.inj h2)

/-- C5 counterexample.  The tabular-row coalescer does not apply the
inline rule: on four tokens against an expected count of two, the
inline coalescer rejoins into two equal chunks while the row coalescer
merges everything after the first token, so the two rules disagree. -/
theorem c5_row_rule_differs_from_inline :
    coalesce_inline_values [sl "a", sl "b", sl "c", sl "d"] 2 ',' =
      [sl "a,b", sl "c,d"]
    ∧ coalesce_row_values [sl "a", sl "b", sl "c", sl "d"] 2 ',' =
      [sl "a", sl "b,c,d"]
    ∧ (coalesce_row_values [sl "a", sl "b", sl "c", sl "d"] 2 ',' ==
        coalesce_inline_values [sl "a", sl "b", sl "c", sl "d"] 2 ',') = false :=
  ⟨rfl, rfl, rfl⟩

/-- C6 counterexample.  A Number held as the floating-point value 1.0
renders as `1.0`, which contains a decimal point, against the claim
that every integral Number renders without one. -/
theorem c6_integral_float_renders_with_point :
    encode_primitive (J.float (.fin 1 0)) ',' = sl "1.0"
    ∧ (sl "1.0").contains '.' = true :=
  ⟨rfl, rfl⟩

/-- C8 counterexample.  Count mismatches do not all become silent
acceptance in non-strict mode: a tabular row with fewer values than
fields makes non-strict decoding fail with Python's IndexError (from
`primitives[idx]`), where strict mode reports the count mismatch. -/
theorem c8_nonstrict_row_underflow_raises :
    decodeText false (sl "items[1]\x7ba,b\x7d:\n  1") =
      .error (.index (sl "list index out of range"))
    ∧ decodeText true (sl "items[1]\x7ba,b\x7d:\n  1") =
      .error (.count (countMsg 2 1 (sl "tabular row values"))) :=
  ⟨rfl, rfl⟩

/-- C3 counterexample.  The token `0123` matches the claim's
numeric-literal pattern (`numericCoreMatch`, the pattern the spec
states: optional minus, digits, optional dot-digits, optional
exponent), yet decodePrimitive returns it as the string `"0123"`, not
as a number. -/
theorem c3_pattern_token_decodes_as_string :
    numericCoreMatch (sl "0123") = true
    ∧ parse_primitive_token (sl "0123") = .ok (J.str (sl "0123")) :=
  ⟨rfl, rfl⟩

/-- C5 amended.  The row coalescer leaves the tokens unchanged when the
field count is zero or not exceeded, and otherwise merges every token
beyond `expected - 1` into one delimiter-joined token — with no
evenly-divisible chunking. -/
theorem c5_row_coalescing_behaviour (xs : List Str) (n : Nat) (d : Char) :
    (n = 0 → coalesce_row_values xs n d = xs)
    ∧ (xs.length ≤ n → coalesce_row_values xs n d = xs)
    ∧ (0 < n → n < xs.length →
        coalesce_row_values xs n d =
          xs.take (n - 1) ++ [joinWith [d] (xs.drop (n - 1))]) := by
  refine ⟨fun h => ?_, fun h => ?_, fun h1 h2 => ?_⟩ <;>
    · unfold coalesce_row_values
      split_ifs <;> first | rfl | omega

/-- Witness for C5: the amended row rule evaluated at three tokens
against a field count of two. -/
theorem c5_row_coalescing_behaviour_witness :
    coalesce_row_values [sl "a", sl "b", sl "c"] 2 ',' =
      [sl "a"].take 1 ++ [joinWith [','] [sl "b", sl "c"]] := by
  have h := (c5_row_coalescing_behaviour [sl "a", sl "b", sl "c"] 2 ',').2.2
    (by decide) (by decide)
  simpa using h

/-- Every character put into the accumulator by the digit loop is a
decimal digit, so a dot never appears. -/
theorem natDigitsAux_no_dot : ∀ (f n : Nat) (acc : Str),
    '.' ∉ acc → '.' ∉ natDigitsAux f n acc := by
  intro f
  induction f with
  | zero => intro n acc h; exact h
  | succ f ih =>
    intro n acc h
    have hd : Char.ofNat (48 + n % 10) ≠ '.' := by
      have hlt : n % 10 < 10 := Nat.mod_lt _ (by omega)
      interval_cases h : (n % 10) <;> decide
    simp only [natDigitsAux]
    split
    · simp only [List.mem_cons, not_or]
      exact ⟨fun he => hd he.symm, h⟩
    · exact ih (n / 10) _ (by
        simp only [List.mem_cons, not_or]
        exact ⟨fun he => hd he.symm, h⟩)

/-- The decimal repr of an int contains no dot. -/
theorem pyIntRepr_no_dot (n : Int) : '.' ∉ pyIntRepr n := by
  unfold pyIntRepr natDigits
  split
  · simp only [List.mem_cons, not_or]
    exact ⟨by decide, natDigitsAux_no_dot _ _ _ (by simp)⟩
  · exact natDigitsAux_no_dot _ _ _ (by simp)

/-- C6 amended.  Numbers held as ints render as decimal text with no
decimal point, for every delimiter; numbers held as floats go through
Python `str`, which renders an integral float of magnitude below 10^16
as its integer digits followed by `.0` — with a decimal point. -/
theorem c6_number_rendering :
    (∀ (n : Int) (d : Char),
      encode_primitive (J.int n) d = pyIntRepr n ∧ '.' ∉ pyIntRepr n)
    ∧ (∀ (m e : Int) (d : Char), 0 ≤ e → m.natAbs * 10 ^ e.toNat < 10 ^ 16 →
        encode_primitive (J.float (.fin m e)) d =
          pyIntRepr (m * ((10 ^ e.toNat : ℕ) : Int)) ++ sl ".0") := by
  constructor
  · exact fun n d => ⟨rfl, pyIntRepr_no_dot n⟩
  · intro m e d he hb
    show pyFloatRepr (.fin m e) = _
    simp only [pyFloatRepr]
    rw [if_pos ⟨he, hb⟩]

/-- Witness for C6: the amended rendering rule evaluated at the int 30
and the float 2.0. -/
theorem c6_number_rendering_witness :
    (encode_primitive (J.int 30) ',' = pyIntRepr 30 ∧ '.' ∉ pyIntRepr 30)
    ∧ encode_primitive (J.float (.fin 2 0)) ',' =
        pyIntRepr (2 * ((10 ^ (0 : Nat) : ℕ) : Int)) ++ sl ".0" :=
  ⟨c6_number_rendering.1 30 ',',
   c6_number_rendering.2 2 0 ',' (by decide) (by decide)⟩

/-- Looking up the key just assigned returns the assigned value. -/
theorem dictGet_dictSet (d : Obj) (k : Str) (v : J) :
    dictGet (dictSet d k v) k = some v := by
  induction d with
  | nil => simp [dictSet, dictGet]
  | cons kv rest ih =>
    obtain ⟨k', v'⟩ := kv
    by_cases h : k' = k
    · simp [dictSet, dictGet, h]
    · simp [dictSet, dictGet, h, ih]

/-- Assignment either keeps the key list or appends the new key. -/
theorem dictSet_keys (d : Obj) (k : Str) (v : J) :
    (dictSet d k v).map Prod.fst =
      (if k ∈ d.map Prod.fst then d.map Prod.fst else d.map Prod.fst ++ [k]) := by
  induction d with
  | nil => simp only [dictSet, List.map_nil, List.map_cons, List.not_mem_nil,
      if_neg, List.nil_append, not_false_iff]
  | cons kv rest ih =>
    obtain ⟨k', v'⟩ := kv
    by_cases h : k' = k
    · simp [dictSet, h]
    · have hne : k ≠ k' := fun he => h he.symm
      by_cases hm : k ∈ rest.map Prod.fst <;>
        simp [dictSet, h, ih, hm, hne]

/-- C10.  Binding the same key twice never fails and leaves exactly one
entry, holding the later value: dict assignment overwrites in place and
keeps keys unique, and decoding a body whose lines bind `a` twice
yields one `a` entry with the value of the last line. -/
theorem c10_duplicate_keys_last_wins :
    (∀ (d : Obj) (k : Str) (v : J), dictGet (dictSet d k v) k = some v)
    ∧ (∀ (d : Obj) (k : Str) (v : J),
        (d.map Prod.fst).Nodup → ((dictSet d k v).map Prod.fst).Nodup)
    ∧ decodeText true (sl "a: 1\nb: 3\na: 2") =
        .ok (J.obj [(sl "a", J.int 2), (sl "b", J.int 3)]) := by
  refine ⟨dictGet_dictSet, fun d k v h => ?_, rfl⟩
  rw [dictSet_keys]
  split
  · exact h
  · next hm => simp [List.nodup_append, h, hm]

/-- Witness for C10: overwrite and key-uniqueness at a concrete dict. -/
theorem c10_duplicate_keys_last_wins_witness :
    dictGet (dictSet [(sl "b", J.int 0)] (sl "a") (J.int 1)) (sl "a") =
      some (J.int 1)
    ∧ ((dictSet [(sl "b", J.int 0)] (sl "a") (J.int 1)).map Prod.fst).Nodup :=
  ⟨c10_duplicate_keys_last_wins.1 _ _ _,
   c10_duplicate_keys_last_wins.2.1 _ _ _ (by decide)⟩

/-- A successful lookup's key is among the entry keys. -/
theorem mem_keys_of_dictGet {d : Obj} {k : Str} {v : J}
    (h : dictGet d k = some v) : k ∈ d.map Prod.fst := by
  induction d with
  | nil => simp [dictGet] at h
  | cons kv rest ih =>
    obtain ⟨k', v'⟩ := kv
    by_cases he : k' = k
    · simp [he]
    · simp only [dictGet, if_neg he] at h
      simp [ih h]

/-- A key among the entry keys looks up successfully. -/
theorem dictGet_isSome_of_mem_keys {d : Obj} {k : Str}
    (h : k ∈ d.map Prod.fst) : ∃ v, dictGet d k = some v := by
  induction d with
  | nil => simp at h
  | cons kv rest ih =>
    obtain ⟨k', v'⟩ := kv
    by_cases he : k' = k
    · exact ⟨v', by simp [dictGet, he]⟩
    · simp only [List.map_cons, List.mem_cons] at h
      rcases h with h | h
      · exact absurd h.symm he
      · simpa [dictGet, he] using ih h

/-- A successful lookup returns an entry of the dict. -/
theorem dictGet_mem {d : Obj} {k : Str} {v : J}
    (h : dictGet d k = some v) : (k, v) ∈ d := by
  induction d with
  | nil => simp [dictGet] at h
  | cons kv rest ih =>
    obtain ⟨k', v'⟩ := kv
    by_cases he : k' = k
    · simp only [dictGet, if_pos he] at h
      simp [he, (Option.some.injEq .. ▸ h : v' = v).symm]
    · simp only [dictGet, if_neg he] at h
      simp [ih h]

/-- With unique keys, each entry is found by lookup. -/
theorem dictGet_of_mem_nodup {d : Obj} {k : Str} {v : J}
    (hn : (d.map Prod.fst).Nodup) (h : (k, v) ∈ d) :
    dictGet d k = some v := by
  induction d with
  | nil => simp at h
  | cons kv rest ih =>
    obtain ⟨k', v'⟩ := kv
    simp only [List.map_cons, List.nodup_cons] at hn
    rcases List.mem_cons.mp h with h | h
    · obtain ⟨h1, h2⟩ := Prod.mk.injEq .. ▸ h
      simp [dictGet, h1.symm, h2]
    · have hne : k' ≠ k := by
        intro he
        exact hn.1 (he ▸ (List.mem_map.mpr ⟨(k, v), h, rfl⟩))
      simp [dictGet, hne, ih hn.2 h]

/-- The tabular-eligibility condition as the claim states it: every
element is a non-empty object, all elements have identical key sets,
and every value in every element is a primitive. -/
def specTabularEligible (rows : List J) : Prop :=
  rows ≠ [] ∧
    ∃ ks : List Str,
      ∀ r ∈ rows, ∃ kvs, r = J.obj kvs ∧ kvs ≠ [] ∧
        (∀ k, k ∈ kvs.map Prod.fst ↔ k ∈ ks) ∧
        ∀ p ∈ kvs, is_json_primitive p.2 = true

/-- Two nodup key lists with the same members and a length bound are
mutually contained (via their finsets). -/
theorem keys_subset_of_len {l₁ l₂ : List Str}
    (h1 : l₁.Nodup) (h2 : l₂.Nodup) (hsub : ∀ k, k ∈ l₁ → k ∈ l₂)
    (hlen : l₂.length ≤ l₁.length) : ∀ k, k ∈ l₂ → k ∈ l₁ := by
  intro k hk
  have hfs : l₁.toFinset ⊆ l₂.toFinset := by
    intro a ha
    exact List.mem_toFinset.mpr (hsub a (List.mem_toFinset.mp ha))
  have hc1 : l₁.toFinset.card = l₁.length := List.toFinset_card_of_nodup h1
  have hc2 : l₂.toFinset.card = l₂.length := List.toFinset_card_of_nodup h2
  have : l₂.toFinset ⊆ l₁.toFinset :=
    Finset.subset_of_eq (Finset.eq_of_subset_of_card_le hfs (by omega)).symm
  exact List.mem_toFinset.mp (this (List.mem_toFinset.mpr hk))

/-- Two nodup key lists with the same members have the same length. -/
theorem keys_length_eq {l₁ l₂ : List Str}
    (h1 : l₁.Nodup) (h2 : l₂.Nodup) (hiff : ∀ k, k ∈ l₁ ↔ k ∈ l₂) :
    l₁.length = l₂.length := by
  have hfs : l₁.toFinset = l₂.toFinset := by
    ext a
    simp only [List.mem_toFinset]
    exact hiff a
  have hc1 := List.toFinset_card_of_nodup h1
  have hc2 := List.toFinset_card_of_nodup h2
  have := congrArg Finset.card hfs
  omega

/-- The per-row check of is_tabular_array agrees with the claim's
per-row condition, for a non-empty nodup header and nodup row keys. -/
theorem row_check_iff (header : List Str) (kvs : Obj)
    (hh : header ≠ []) (hhn : header.Nodup)
    (hkn : (kvs.map Prod.fst).Nodup) :
    (kvs.length = header.length ∧
      ∀ k ∈ header, ∃ v, dictGet kvs k = some v ∧ is_json_primitive v = true)
    ↔ (kvs ≠ [] ∧ (∀ k, k ∈ kvs.map Prod.fst ↔ k ∈ header) ∧
        ∀ p ∈ kvs, is_json_primitive p.2 = true) := by
  constructor
  · rintro ⟨hlen, hall⟩
    have hsub : ∀ k, k ∈ header → k ∈ kvs.map Prod.fst := by
      intro k hk
      obtain ⟨v, hv, _⟩ := hall k hk
      exact mem_keys_of_dictGet hv
    have hlen' : (kvs.map Prod.fst).length ≤ header.length := by
      simp [hlen]
    have hsub' := keys_subset_of_len hhn hkn hsub hlen'
    refine ⟨?_, fun k => ⟨hsub' k, hsub k⟩, ?_⟩
    · intro he
      subst he
      exact hh (List.length_eq_zero.mp hlen.symm)
    · rintro ⟨k, v⟩ hp
      have hk : k ∈ kvs.map Prod.fst := List.mem_map.mpr ⟨(k, v), hp, rfl⟩
      obtain ⟨v', hv', hprim⟩ := hall k (hsub' k hk)
      have := dictGet_of_mem_nodup hkn hp
      rw [this] at hv'
      injection hv' with h
      rw [h]
      exact hprim
  · rintro ⟨hne, hiff, hprim⟩
    have hlen : (kvs.map Prod.fst).length = header.length :=
      keys_length_eq hkn hhn hiff
    refine ⟨by simpa using hlen, ?_⟩
    intro k hk
    obtain ⟨v, hv⟩ := dictGet_isSome_of_mem_keys ((hiff k).mpr hk)
    exact ⟨v, hv, hprim _ (dictGet_mem hv)⟩

/-- C4.  For an array of objects (each with unique keys), the encoder
produces the tabular representation exactly when the claim's condition
holds: extract_tabular_header succeeds iff every element is a non-empty
object with the same key set and all-primitive values, and
encode_array dispatches to the tabular writer when it succeeds and to
the list-item fallback when it does not. -/
theorem c4_tabular_iff (rows : List J)
    (hne : rows ≠ [])
    (hobj : ∀ r ∈ rows, ∃ kvs, r = J.obj kvs ∧ (kvs.map Prod.fst).Nodup) :
    ((extract_tabular_header rows).isSome ↔ specTabularEligible rows)
    ∧ ∀ (fuel : Nat) (key : Option Str) (w : List Str) (depth : Nat) (o : EncOpts),
        encode_array (fuel + 1) key rows w depth o =
          (match extract_tabular_header rows with
           | some h => encode_array_of_objects_as_tabular key rows h w depth o
           | none => encode_mixed_array_as_list_items fuel key rows w depth o) := by
  obtain ⟨r0, rest, rfl⟩ : ∃ r0 rest, rows = r0 :: rest := by
    cases rows with
    | nil => exact absurd rfl hne
    | cons a l => exact ⟨a, l, rfl⟩
  obtain ⟨kvs0, hr0, hn0⟩ := hobj r0 (by simp)
  subst hr0
  constructor
  · -- the eligibility iff
    constructor
    · intro hsome
      unfold extract_tabular_header at hsome
      simp only at hsome
      by_cases hemp : (kvs0.map Prod.fst).isEmpty
      · rw [if_pos hemp] at hsome; simp at hsome
      · rw [if_neg hemp] at hsome
        have htab : is_tabular_array (J.obj kvs0 :: rest) (kvs0.map Prod.fst) = true := by
          by_cases h : is_tabular_array (J.obj kvs0 :: rest) (kvs0.map Prod.fst)
          · exact h
          · rw [if_neg h] at hsome; simp at hsome
        have hh : kvs0.map Prod.fst ≠ [] := by
          intro h; rw [h] at hemp; simp at hemp
        refine ⟨by simp, kvs0.map Prod.fst, ?_⟩
        intro r hr
        obtain ⟨kvs, hrk, hkn⟩ := hobj r hr
        subst hrk
        have hrow := (List.all_eq_true.mp htab) _ hr
        simp only [Bool.and_eq_true] at hrow
        obtain ⟨hlen, hkeys⟩ := hrow
        have hall : ∀ k ∈ kvs0.map Prod.fst,
            ∃ v, dictGet kvs k = some v ∧ is_json_primitive v = true := by
          intro k hk
          have := (List.all_eq_true.mp hkeys) _ hk
          revert this
          cases h : dictGet kvs k with
          | none => simp
          | some v => exact fun hp => ⟨v, rfl, hp⟩
        have := (row_check_iff (kvs0.map Prod.fst) kvs hh hn0 hkn).mp
          ⟨by simpa using of_decide_eq_true hlen, hall⟩
        exact ⟨kvs, rfl, this.1, this.2.1, this.2.2⟩
    · rintro ⟨-, ks, hspec⟩
      unfold extract_tabular_header
      simp only
      obtain ⟨kvs0', he0, hne0, hks0, hprim0⟩ :=
        hspec (J.obj kvs0) (by simp)
      have hkv0 : kvs0 = kvs0' := by injection he0
      subst hkv0
      have hemp : ¬ (kvs0.map Prod.fst).isEmpty = true := by
        simpa using hne0
      rw [if_neg hemp]
      have htab : is_tabular_array (J.obj kvs0 :: rest) (kvs0.map Prod.fst) = true := by
        apply List.all_eq_true.mpr
        intro r hr
        obtain ⟨kvs, hrk, hkn⟩ := hobj r hr
        obtain ⟨kvs', he, hne', hks', hprim'⟩ := hspec r hr
        have hkveq : kvs = kvs' := by
          rw [hrk] at he
          injection he
        subst hkveq
        subst hrk
        have hh : kvs0.map Prod.fst ≠ [] := by simpa using hne0
        have hiff : ∀ k, k ∈ kvs.map Prod.fst ↔ k ∈ kvs0.map Prod.fst := by
          intro k
          rw [hks' k, hks0 k]
        obtain ⟨hlen, hall⟩ :=
          (row_check_iff (kvs0.map Prod.fst) kvs hh hn0 hkn).mpr
            ⟨hne', hiff, hprim'⟩
        simp only [Bool.and_eq_true]
        refine ⟨decide_eq_true (by simpa using hlen), ?_⟩
        apply List.all_eq_true.mpr
        intro k hk
        obtain ⟨v, hv, hp⟩ := hall k hk
        simp [hv, hp]
      rw [if_pos htab]
      simp
  · -- the dispatch equation
    intro fuel key w depth o
    have hobj' : (J.obj kvs0 :: rest).all is_json_object = true := by
      apply List.all_eq_true.mpr
      intro r hr
      obtain ⟨kvs, hrk, -⟩ := hobj r hr
      rw [hrk]; rfl
    show encStep (fuel + 1) (.eArray key (J.obj kvs0 :: rest) depth) w o = _
    simp only [encStep]
    rw [if_neg (by simp), if_neg (by simp [is_array_of_primitives, is_json_primitive]),
      if_neg (by simp [is_array_of_arrays, is_json_array]),
      if_pos (by simp [is_array_of_objects, hobj'])]
    cases extract_tabular_header (J.obj kvs0 :: rest) <;> rfl

/-- Witness for C4: the eligibility iff and the dispatch equation at a
one-row array of objects. -/
theorem c4_tabular_iff_witness :
    ((extract_tabular_header [J.obj [(sl "id", J.int 1)]]).isSome ↔
      specTabularEligible [J.obj [(sl "id", J.int 1)]])
    ∧ encode_array 9 none [J.obj [(sl "id", J.int 1)]] [] 0 defaultEncOpts =
        (match extract_tabular_header [J.obj [(sl "id", J.int 1)]] with
         | some h =>
            encode_array_of_objects_as_tabular none [J.obj [(sl "id", J.int 1)]]
              h [] 0 defaultEncOpts
         | none =>
            encode_mixed_array_as_list_items 8 none [J.obj [(sl "id", J.int 1)]]
              [] 0 defaultEncOpts) :=
  have h := c4_tabular_iff [J.obj [(sl "id", J.int 1)]] (by simp)
    (fun r hr => ⟨[(sl "id", J.int 1)], by simpa using hr, by decide⟩)
  ⟨h.1, h.2 8 none [] 0 defaultEncOpts⟩

/-- Unfolded form of `digits1`. -/
theorem digits1_eq (cs : Str) : digits1 cs =
    (if (cs.takeWhile Char.isDigit).isEmpty then none
     else some (cs.dropWhile Char.isDigit)) := rfl

/-- The underscore digit loop consumes exactly a plain digit span when
the remainder starts with neither a digit nor an underscore. -/
theorem uDigitsLoop_append (ds : Str) (hds : ∀ c ∈ ds, c.isDigit = true) :
    ∀ (r : Str) (acc cnt : Nat),
      r.head? ≠ some '_' →
      (∀ c, r.head? = some c → c.isDigit = false) →
      ∃ v, uDigitsLoop (ds ++ r) acc cnt = (v, cnt + ds.length, r) := by
  induction ds with
  | nil =>
    intro r acc cnt hu hd
    refine ⟨acc, ?_⟩
    cases r with
    | nil => simp [uDigitsLoop]
    | cons c rest =>
      have hcd : c.isDigit = false := hd c rfl
      have hcu : ¬ c = '_' := fun h => hu (by rw [h]; rfl)
      unfold uDigitsLoop
      simp [hcd, hcu]
  | cons d ds' ih =>
    intro r acc cnt hu hd
    have hdd : d.isDigit = true := hds d (by simp)
    obtain ⟨v, hv⟩ := ih (fun c hc => hds c (by simp [hc])) r
      (acc * 10 + (d.toNat - 48)) (cnt + 1) hu hd
    refine ⟨v, ?_⟩
    rw [List.cons_append]
    unfold uDigitsLoop
    rw [if_pos hdd, hv]
    have harith : cnt + 1 + ds'.length = cnt + (d :: ds').length := by
      simp only [List.length_cons]
      omega
    rw [harith]

/-- A successful `digits1` span is consumed identically by
`parseUDigits` when the rest does not begin with an underscore. -/
theorem parseUDigits_of_digits1 {cs r : Str}
    (h : digits1 cs = some r) (hu : r.head? ≠ some '_') :
    ∃ v n, parseUDigits cs = some (v, n, r) := by
  rw [digits1_eq] at h
  by_cases he : (cs.takeWhile Char.isDigit).isEmpty
  · rw [if_pos he] at h; exact absurd h (by simp)
  · rw [if_neg he] at h
    have hr : r = cs.dropWhile Char.isDigit := by
      injection h with h'
      exact h'.symm
    subst hr
    have hcs : cs.takeWhile Char.isDigit ++ cs.dropWhile Char.isDigit = cs :=
      List.takeWhile_append_dropWhile Char.isDigit cs
    have hall : ∀ c ∈ cs.takeWhile Char.isDigit, c.isDigit = true := fun c hc =>
      List.mem_takeWhile_imp hc
    have hrd : ∀ c, (cs.dropWhile Char.isDigit).head? = some c →
        c.isDigit = false := by
      intro c hc
      have := List.head?_dropWhile_not Char.isDigit cs
      rw [hc] at this
      simpa using this
    obtain ⟨v, hv⟩ := uDigitsLoop_append (cs.takeWhile Char.isDigit) hall
      (cs.dropWhile Char.isDigit) 0 0 hu hrd
    rw [hcs] at hv
    obtain ⟨c, rest, hcr⟩ : ∃ c rest, cs = c :: rest := by
      cases hc : cs with
      | nil => rw [hc] at he; simp at he
      | cons c rest => exact ⟨c, rest, rfl⟩
    have hcd : c.isDigit = true := by
      apply hall
      rw [hcr]
      rw [hcr] at he
      simp only [List.takeWhile_cons] at he ⊢
      by_cases hcd' : c.isDigit
      · simp [hcd']
      · rw [if_neg hcd'] at he; simp at he
    refine ⟨v, (cs.takeWhile Char.isDigit).length, ?_⟩
    rw [hcr,
      show parseUDigits (c :: rest) =
        (if c.isDigit = true then some (uDigitsLoop (c :: rest) 0 0) else none)
        from rfl,
      if_pos hcd, ← hcr, hv]
    simp

/-- Case analysis for a successful exponent step. -/
theorem expBranch_cases {r2 : Str} (h : expBranch r2 = true) :
    r2 = [] ∨ ∃ e r3, r2 = e :: r3 ∧ (e = 'e' ∨ e = 'E') ∧
      digits1 (expSignStrip r3) = some [] := by
  cases r2 with
  | nil => exact Or.inl rfl
  | cons e r3 =>
    by_cases he : e = 'e' ∨ e = 'E'
    · cases hd3 : digits1 (expSignStrip r3) with
      | none => simp [expBranch, he, hd3] at h
      | some r5 =>
        have hr5 : r5 = [] := by
          have := h
          simp only [expBranch, if_pos he, hd3] at this
          simpa using this
        exact Or.inr ⟨e, r3, rfl, he, hr5 ▸ hd3⟩
    · simp [expBranch, he] at h

/-- Case analysis for a successful fractional step. -/
theorem dotBranch_cases {r1 r2 : Str} (h : dotBranch r1 = some r2) :
    (r2 = r1 ∧ r1.head? ≠ some '.') ∨
    (∃ r, r1 = '.' :: r ∧ digits1 r = some r2) := by
  cases r1 with
  | nil =>
    left
    refine ⟨?_, by simp⟩
    have : some ([] : Str) = some r2 := by simpa [dotBranch] using h
    injection this with h'
    exact h'.symm
  | cons c r =>
    by_cases hc : c = '.'
    · subst hc
      exact Or.inr ⟨r, rfl, by simpa [dotBranch] using h⟩
    · left
      have : some (c :: r) = some r2 := by simpa [dotBranch, hc] using h
      injection this with h'
      exact ⟨h'.symm, by simpa using hc⟩

/-- A token accepted by the core numeric pattern is accepted by the
float-literal magnitude grammar. -/
theorem coreAccept_magnitude {cs : Str} (h : numericCoreAfterSign cs = true) :
    (pyFloatMagnitude cs).isSome = true := by
  unfold numericCoreAfterSign at h
  cases hd1 : digits1 cs with
  | none => simp [hd1] at h
  | some r1 =>
    cases hd2 : dotBranch r1 with
    | none => simp [hd1, hd2] at h
    | some r2 =>
      have hexp : expBranch r2 = true := by
        simpa [hd1, hd2] using h
      rcases dotBranch_cases hd2 with ⟨hr21, hnd⟩ | ⟨r, hr1, hdig⟩
      · subst hr21
        rcases expBranch_cases hexp with hnil | ⟨e, r3, hcons, he, hd3⟩
        · subst hnil
          obtain ⟨ip, n1, hp1⟩ := parseUDigits_of_digits1 hd1 (by simp)
          simp [pyFloatMagnitude, hp1]
        · subst hcons
          obtain ⟨ip, n1, hp1⟩ := parseUDigits_of_digits1 hd1
            (by rcases he with rfl | rfl <;> simp)
          obtain ⟨ev, n3, hp3⟩ := parseUDigits_of_digits1 hd3 (by simp)
          rcases he with rfl | rfl <;>
            simp [pyFloatMagnitude, hp1, hp3]
      · subst hr1
        obtain ⟨ip, n1, hp1⟩ := parseUDigits_of_digits1 hd1 (by simp)
        rcases expBranch_cases hexp with hnil | ⟨e, r3, hcons, he, hd3⟩
        · subst hnil
          obtain ⟨fp, n2, hp2⟩ := parseUDigits_of_digits1 hdig (by simp)
          simp [pyFloatMagnitude, hp1, hp2]
        · subst hcons
          obtain ⟨fp, n2, hp2⟩ := parseUDigits_of_digits1 hdig
            (by rcases he with rfl | rfl <;> simp)
          obtain ⟨ev, n3, hp3⟩ := parseUDigits_of_digits1 hd3 (by simp)
          rcases he with rfl | rfl <;>
            simp [pyFloatMagnitude, hp1, hp2, hp3]


/-- Lowercasing leaves an ASCII digit unchanged. -/
theorem digit_toLower {d : Char} (h : d.isDigit = true) : d.toLower = d := by
  simp [Char.isDigit] at h
  have h2 : d.toNat ≤ 57 := h.2
  unfold Char.toLower
  rw [if_neg]
  intro hc
  omega

/-- A string accepted by the digit-run step starts with a digit. -/
theorem digits1_head_digit {cs r : Str} (h : digits1 cs = some r) :
    ∃ d rest, cs = d :: rest ∧ d.isDigit = true := by
  rw [digits1_eq] at h
  by_cases he : (cs.takeWhile Char.isDigit).isEmpty
  · rw [if_pos he] at h; exact absurd h (by simp)
  · cases cs with
    | nil => simp at he
    | cons d rest =>
      refine ⟨d, rest, rfl, ?_⟩
      by_cases hd : d.isDigit = true
      · exact hd
      · exfalso
        simp [List.takeWhile, hd] at he

/-- A body accepted by the core numeric pattern is not one of the
special float spellings and is accepted by the float magnitude
grammar. -/
theorem core_body_facts {body : Str} (hcore : numericCoreAfterSign body = true) :
    (body.map Char.toLower ≠ sl "inf") ∧ (body.map Char.toLower ≠ sl "infinity") ∧
    (body.map Char.toLower ≠ sl "nan") ∧ (pyFloatMagnitude body).isSome = true := by
  have hmag := coreAccept_magnitude hcore
  have hd1 : ∃ r1, digits1 body = some r1 := by
    unfold numericCoreAfterSign at hcore
    cases hd : digits1 body with
    | none => rw [hd] at hcore; exact absurd hcore (by simp)
    | some r1 => exact ⟨r1, rfl⟩
  obtain ⟨r1, hd1⟩ := hd1
  obtain ⟨d, rest, hb, hd⟩ := digits1_head_digit hd1
  have hmap : body.map Char.toLower = d :: rest.map Char.toLower := by
    rw [hb, List.map_cons, digit_toLower hd]
  refine ⟨?_, ?_, ?_, hmag⟩
  · rw [hmap]; intro h
    rw [show sl "inf" = 'i' :: 'n' :: 'f' :: [] from rfl] at h
    injection h with h1 _
    rw [h1] at hd; exact absurd hd (by decide)
  · rw [hmap]; intro h
    rw [show sl "infinity" = 'i' :: ('n' :: 'f' :: 'i' :: 'n' :: 'i' :: 't' :: 'y' :: []) from rfl] at h
    injection h with h1 _
    rw [h1] at hd; exact absurd hd (by decide)
  · rw [hmap]; intro h
    rw [show sl "nan" = 'n' :: 'a' :: 'n' :: [] from rfl] at h
    injection h with h1 _
    rw [h1] at hd; exact absurd hd (by decide)

/-- A stripped token matching the core numeric pattern is accepted by
Python float() with a non-NaN result. -/
theorem core_float_some {t : Str} (hs : pyStrip t = t)
    (hcm : numericCoreMatch t = true) :
    ∃ f, pyFloatOfString t = some f ∧ f ≠ PFloat.pnan := by
  cases t with
  | nil => exact absurd hcm (by decide)
  | cons c r =>
    unfold numericCoreMatch at hcm
    by_cases hneg : c = '-'
    · subst hneg
      replace hcm : numericCoreAfterSign r = true := by simpa using hcm
      obtain ⟨hinf, hinfy, hnan, hmag⟩ := core_body_facts hcm
      obtain ⟨⟨m, e⟩, hme⟩ := Option.isSome_iff_exists.mp hmag
      simp only [pyFloatOfString, hs]
      simp only [if_true, List.head?_cons, List.tail_cons]
      rw [if_neg (by rintro (h | h); exacts [hinf h, hinfy h]), if_neg hnan]
      simp only [hme]
      split_ifs with h1 h2 <;> exact ⟨_, rfl, by simp⟩
    · replace hcm : numericCoreAfterSign (c :: r) = true := by
        simpa [hneg] using hcm
      by_cases hplus : c = '+'
      · subst hplus
        exact absurd hcm (by simp [numericCoreAfterSign, digits1, digitSpan, List.takeWhile])
      · obtain ⟨hinf, hinfy, hnan, hmag⟩ := core_body_facts hcm
        obtain ⟨⟨m, e⟩, hme⟩ := Option.isSome_iff_exists.mp hmag
        simp only [pyFloatOfString, hs]
        simp only [if_neg hneg, if_neg hplus]
        rw [if_neg (by rintro (h | h); exacts [hinf h, hinfy h]), if_neg hnan]
        simp only [hme]
        split_ifs with h1 h2 <;> exact ⟨_, rfl, by simp⟩

/-- A token is_numeric_literal accepts is parsed by float() to a
non-NaN value. -/
theorem is_numeric_literal_float {t : Str} (hn : is_numeric_literal t = true) :
    ∃ f, pyFloatOfString t = some f ∧ f ≠ PFloat.pnan := by
  unfold is_numeric_literal at hn
  by_cases h1 : t.isEmpty = true
  · rw [if_pos h1] at hn; exact absurd hn (by simp)
  · rw [if_neg h1] at hn
    by_cases h2 : leadingZeroTok t = true
    · rw [if_pos h2] at hn; exact absurd hn (by simp)
    · rw [if_neg h2] at hn
      cases hpf : pyFloatOfString t with
      | none => rw [hpf] at hn; exact absurd hn (by simp)
      | some f =>
        rw [hpf] at hn
        refine ⟨f, rfl, fun hf => ?_⟩
        subst hf
        exact absurd hn (by simp)

/-- C3: parse_primitive_token maps true/false/null to the
corresponding values; a token counts as numeric iff float() accepts it
with a non-NaN result and the leading-zero guard passes.  Every
stripped unquoted non-keyword token that is not numeric decodes to
itself as a string; a token matching the spec numeric pattern without
a forbidden leading zero is numeric; a numeric token with a dot or
exponent letter decodes via float(), the rest via int() - which can
itself fail, as for the float-accepted token inf.  The tokens 1_000
and +5 are numeric despite not matching the spec pattern. -/
theorem c3_primitive_decode_behaviour :
    (parse_primitive_token (sl "true") = .ok (.bool true) ∧
     parse_primitive_token (sl "false") = .ok (.bool false) ∧
     parse_primitive_token (sl "null") = .ok .null) ∧
    (∀ t : Str, pyStrip t = t → t ≠ [] → t.head? ≠ some '"' →
      is_boolean_or_null_literal t = false →
      ((is_numeric_literal t = false → parse_primitive_token t = .ok (.str t)) ∧
       (numericCoreMatch t = true → leadingZeroTok t = false →
         is_numeric_literal t = true) ∧
       (is_numeric_literal t = true →
         (t.any (fun c => c = '.' ∨ c = 'e' ∨ c = 'E') = true →
           ∃ f, pyFloatOfString t = some f ∧ f ≠ PFloat.pnan ∧
             parse_primitive_token t = .ok (.float f)) ∧
         (t.any (fun c => c = '.' ∨ c = 'e' ∨ c = 'E') = false →
           parse_primitive_token t =
             match pyIntOfString t with
             | some n => .ok (.int n)
             | none => .error (.parse (sl "invalid literal for int with base 10")))))) ∧
    (numericCoreMatch (sl "1_000") = false ∧
      parse_primitive_token (sl "1_000") = .ok (.int 1000)) ∧
    (numericCoreMatch (sl "+5") = false ∧
      parse_primitive_token (sl "+5") = .ok (.int 5)) ∧
    (is_numeric_literal (sl "inf") = true ∧
      parse_primitive_token (sl "inf") =
        .error (.parse (sl "invalid literal for int with base 10"))) := by
  refine ⟨⟨rfl, rfl, rfl⟩, ?_, ⟨rfl, rfl⟩, ⟨rfl, rfl⟩, ⟨rfl, rfl⟩⟩
  intro t hs hne hq hb
  refine ⟨?_, ?_, ?_⟩
  · intro h
    simp only [parse_primitive_token, hs]
    rw [if_neg (by simpa using hne), if_neg hq, if_neg (by simp [hb]),
      if_neg (by simp [h])]
  · intro hcm hlz
    obtain ⟨f, hf, hfn⟩ := core_float_some hs hcm
    unfold is_numeric_literal
    rw [if_neg (by simpa using hne), if_neg (by simp [hlz]), hf]
    cases f <;> first | rfl | exact absurd rfl hfn
  · intro hn
    obtain ⟨f, hpf, hfn⟩ := is_numeric_literal_float hn
    constructor
    · intro hany
      refine ⟨f, hpf, hfn, ?_⟩
      simp only [parse_primitive_token, hs]
      rw [if_neg (by simpa using hne), if_neg hq, if_neg (by simp [hb]),
        if_pos hn, if_pos hany, hpf]
    · intro hany
      simp only [parse_primitive_token, hs]
      rw [if_neg (by simpa using hne), if_neg hq, if_neg (by simp [hb]),
        if_pos hn, if_neg (by rw [hany]; exact Bool.false_ne_true)]

/-- Witness: the general clauses of the C3 theorem applied at the
concrete tokens abc, 42 and 4.5. -/
theorem c3_primitive_decode_behaviour_witness :
    pyStrip (sl "abc") = sl "abc" ∧ is_numeric_literal (sl "abc") = false ∧
    parse_primitive_token (sl "abc") = .ok (.str (sl "abc")) ∧
    numericCoreMatch (sl "42") = true ∧ is_numeric_literal (sl "42") = true ∧
    (∃ f, pyFloatOfString (sl "4.5") = some f ∧ f ≠ PFloat.pnan ∧
      parse_primitive_token (sl "4.5") = .ok (.float f)) := by
  refine ⟨rfl, rfl, ?_, rfl, ?_, ?_⟩
  · exact ((c3_primitive_decode_behaviour.2.1 (sl "abc") rfl (by decide) (by decide) (by decide)).1) rfl
  · exact ((c3_primitive_decode_behaviour.2.1 (sl "42") rfl (by decide) (by decide) (by decide)).2.1) rfl rfl
  · exact (((c3_primitive_decode_behaviour.2.1 (sl "4.5") rfl (by decide) (by decide) (by decide)).2.2) rfl).1 rfl


/-- SimR is reflexive. -/
theorem SimR_refl {α : Type} (a : Except DErr α) : SimR a a := Or.inr rfl

/-- SimR is preserved by monadic bind over Except. -/
theorem SimR_bind {α β : Type} {sa na : Except DErr α} {f g : α → Except DErr β}
    (h1 : SimR sa na) (h2 : ∀ x, SimR (f x) (g x)) :
    SimR (sa >>= f) (na >>= g) := by
  rcases h1 with ⟨m, hs⟩ | h
  · subst hs
    exact Or.inl ⟨m, rfl⟩
  · rw [h]
    cases sa with
    | error e => exact Or.inr rfl
    | ok x => exact h2 x

/-- The strict and non-strict runs of guardCount are related: either
both succeed, or the strict run reports the count error. -/
theorem SimR_guardCount (bad : Bool) (msg : Str) :
    SimR (guardCount true bad msg) (guardCount false bad msg) := by
  cases bad with
  | false => exact Or.inr rfl
  | true => exact Or.inl ⟨msg, rfl⟩

/-- Every strict decoder step is simulated by its non-strict
counterpart: strict mode only ever changes the outcome by raising a
count-mismatch error, because the strict flag is consulted only inside
guardCount. -/
theorem dStep_sim : ∀ (fuel : Nat) (lines : List Line) (c : DCall),
    SimR (dStep fuel lines true c) (dStep fuel lines false c) := by
  intro fuel
  induction fuel with
  | zero => intro lines c; exact Or.inr rfl
  | succ fuel ih =>
    intro lines c
    cases c with
    | valueFromLines i =>
      simp only [dStep]
      cases h : lines.get? i with
      | none => exact Or.inr rfl
      | some first =>
        simp only [h]
        split <;>
        · refine SimR_bind (SimR_refl _) (fun y => ?_)
          match y with
          | some (hh, inl) => exact SimR_bind (ih lines _) (fun x => SimR_refl _)
          | none =>
            dsimp only
            split
            next => exact SimR_refl _
            next => exact SimR_bind (ih lines _) (fun x => SimR_refl _)
    | objLoop base i acc =>
      simp only [dStep]
      cases h : lines.get? i with
      | none => exact Or.inr rfl
      | some line =>
        simp only [h]
        split
        next => exact Or.inr rfl
        next =>
          split
          next =>
            refine SimR_bind (ih lines _) (fun x => ?_)
            match x with
            | (k, v, w, i') => exact ih lines _
          next => exact Or.inr rfl
    | keyValue content base i =>
      simp only [dStep]
      refine SimR_bind (SimR_refl _) (fun hdr? => ?_)
      cases hdr? with
      | some hi =>
        obtain ⟨hh, inl⟩ := hi
        dsimp only
        split
        next =>
          refine SimR_bind (ih lines _) (fun x => ?_)
          match x with
          | (xs, i') => exact SimR_refl _
        next =>
          refine SimR_bind (SimR_refl _) (fun kp => ?_)
          match kp with
          | (k, endPos) =>
            dsimp only
            split
            next =>
              cases h2 : lines.get? i with
              | none => exact Or.inr rfl
              | some nl =>
                simp only [h2]
                split
                next =>
                  refine SimR_bind (ih lines _) (fun x => ?_)
                  match x with
                  | (o, i') => exact SimR_refl _
                next => exact Or.inr rfl
            next => exact SimR_refl _
      | none =>
        dsimp only
        refine SimR_bind (SimR_refl _) (fun kp => ?_)
        match kp with
        | (k, endPos) =>
          dsimp only
          split
          next =>
            cases h2 : lines.get? i with
            | none => exact Or.inr rfl
            | some nl =>
              simp only [h2]
              split
              next =>
                refine SimR_bind (ih lines _) (fun x => ?_)
                match x with
                | (o, i') => exact SimR_refl _
              next => exact Or.inr rfl
          next => exact SimR_refl _
    | arrayFromHeader h inl base i =>
      simp only [dStep]
      cases inl with
      | some s =>
        dsimp only
        split
        next =>
          refine SimR_bind (SimR_refl _) (fun prims => ?_)
          exact SimR_bind (SimR_guardCount _ _) (fun x => SimR_refl _)
        next =>
          split
          next => exact ih lines _
          next => exact ih lines _
      | none =>
        dsimp only
        split
        next => exact ih lines _
        next => exact ih lines _
    | listArray h base i =>
      simp only [dStep]
      refine SimR_bind (ih lines _) (fun x => ?_)
      match x with
      | (items, i') =>
        exact SimR_bind (SimR_guardCount _ _) (fun y =>
          SimR_bind (SimR_guardCount _ _) (fun z => SimR_refl _))
    | listLoop h itemDepth i acc =>
      simp only [dStep]
      split
      next => exact Or.inr rfl
      next =>
        cases h2 : lines.get? i with
        | none => exact Or.inr rfl
        | some line =>
          simp only [h2]
          split
          next => exact Or.inr rfl
          next =>
            split
            next =>
              split
              next => exact ih lines _
              next =>
                split
                next =>
                  refine SimR_bind (ih lines _) (fun x => ?_)
                  match x with
                  | (item, i') => exact ih lines _
                next =>
                  refine SimR_bind (SimR_refl _) (fun nested? => ?_)
                  cases nested? with
                  | some hi =>
                    obtain ⟨nh, ninl⟩ := hi
                    dsimp only
                    refine SimR_bind (ih lines _) (fun x => ?_)
                    match x with
                    | (xs, i') => exact ih lines _
                  | none => exact Or.inr rfl
            next => exact Or.inr rfl
    | listItem itemDepth delim i =>
      simp only [dStep]
      cases h2 : lines.get? i with
      | none => exact Or.inr rfl
      | some line =>
        simp only [h2]
        split
        next => exact Or.inr rfl
        next =>
          split
          next => exact Or.inr rfl
          next =>
            split <;>
            · refine SimR_bind (SimR_refl _) (fun hdr? => ?_)
              cases hdr? with
              | some hi =>
                obtain ⟨hh, hinl⟩ := hi
                dsimp only
                refine SimR_bind (ih lines _) (fun x => ?_)
                match x with
                | (xs, i') => exact SimR_refl _
              | none =>
                dsimp only
                split
                next =>
                  refine SimR_bind (ih lines _) (fun x => ?_)
                  match x with
                  | (o, i') => exact SimR_refl _
                next => exact SimR_refl _
    | tabArray h base i =>
      simp only [dStep]
      refine SimR_bind (ih lines _) (fun x => ?_)
      match x with
      | (objs, i') =>
        exact SimR_bind (SimR_guardCount _ _) (fun y =>
          SimR_bind (SimR_guardCount _ _) (fun z => SimR_refl _))
    | tabLoop h rowDepth i acc =>
      simp only [dStep]
      split
      next => exact Or.inr rfl
      next =>
        cases h2 : lines.get? i with
        | none => exact Or.inr rfl
        | some line =>
          simp only [h2]
          split
          next => exact Or.inr rfl
          next =>
            split
            next =>
              refine SimR_bind (SimR_guardCount _ _) (fun x => ?_)
              refine SimR_bind (SimR_refl _) (fun prims => ?_)
              refine SimR_bind (SimR_refl _) (fun obj => ?_)
              exact ih lines _
            next => exact Or.inr rfl
    | objFromListItem afterHyphen base i =>
      simp only [dStep]
      refine SimR_bind (ih lines _) (fun x => ?_)
      match x with
      | (k, v, followDepth, i') => exact ih lines _
    | kvLoop followDepth i acc =>
      simp only [dStep]
      cases h2 : lines.get? i with
      | none => exact Or.inr rfl
      | some line =>
        simp only [h2]
        split
        next => exact Or.inr rfl
        next =>
          split
          next =>
            refine SimR_bind (ih lines _) (fun x => ?_)
            match x with
            | (k, v, w, i') => exact ih lines _
          next => exact Or.inr rfl

/-- SimR is preserved by mapping a function over the payload. -/
theorem SimR_map {α β : Type} {s n : Except DErr α} (f : α → β)
    (h : SimR s n) : SimR (Except.map f s) (Except.map f n) := by
  rcases h with ⟨m, hs⟩ | h
  · subst hs
    exact Or.inl ⟨m, rfl⟩
  · rw [h]
    exact Or.inr rfl

/-- C8 (amended).  Disabling strict mode changes behaviour only where
strict decoding reports a count mismatch: whenever strict decoding
succeeds, non-strict decoding returns the same value, and whenever
strict decoding raises a quoting/escaping or header-syntax error (or
the IndexError of a tabular row access), non-strict decoding raises
that same error.  (Strict count-mismatch reports are not always
silently accepted in non-strict mode: the registered counterexample
shows a tabular row underflow failing with an IndexError instead.) -/
theorem c8_strict_nonstrict_relation (text : Str) :
    (∀ v, decodeText true text = .ok v → decodeText false text = .ok v) ∧
    (∀ m, decodeText true text = .error (.parse m) →
      decodeText false text = .error (.parse m)) ∧
    (∀ m, decodeText true text = .error (.index m) →
      decodeText false text = .error (.index m)) := by
  have hrel : SimR (decodeText true text) (decodeText false text) := by
    unfold decodeText decode_value_from_lines
    split
    next => exact Or.inr rfl
    next =>
      dsimp only
      split
      next => exact Or.inr rfl
      next => exact SimR_map Prod.fst (dStep_sim _ _ _)
  rcases hrel with ⟨m, hs⟩ | h
  · rw [hs]
    refine ⟨?_, ?_, ?_⟩ <;> intro x hx <;> exact absurd hx (by simp)
  · rw [h]
    exact ⟨fun _ hv => hv, fun _ hm => hm, fun _ hm => hm⟩

/-- Witness: the C8 theorem applied at the concrete document a: 1,
which strict decoding accepts. -/
theorem c8_strict_nonstrict_relation_witness :
    decodeText false (sl "a: 1") = .ok (J.obj [(sl "a", J.int 1)]) :=
  (c8_strict_nonstrict_relation (sl "a: 1")).1 _ rfl

end Toon
